import Mathlib

/-!
Shallow embedding of the `instrument` package of the moriarty repository
(file `pkg/instrument/instrument.go`): the type-aware AST rewriter that
inserts memory read/write hooks, lowers `if`/`for` statements, desugars
`go` statements and adds the runtime imports.

Modelling conventions:
* Machine maps keyed by AST node identity (`types.Info.Uses`, `Defs`,
  `Types`) are modelled as annotations carried on the corresponding AST
  node: each identifier occurrence carries its `Uses` entry (an optional
  object kind) and whether `Defs` has a non-nil entry for it; each index
  expression carries the `Types` entry of its indexed operand (whether the
  lookup succeeds, and whether the underlying type is a map).
* `instr.typeInfo != nil` is the boolean parameter `ti` threaded through
  the functions (set by the type-checking step of `InstrumentASTs` /
  `InstrumentAST`, whose success is an oracle input here).
* `astutil.Cursor.Index() >= 0` (`canInsertBefore`) is the boolean
  `inList` distinguishing statement-list slots from single-statement
  slots; traversal functions are split into a list version (insertion
  possible) and a single-slot version, mirroring `astutil.Apply`, which
  visits children first and then runs the rewriting callback.
* `switch` bodies are modelled as a single statement list (case-clause
  guard expressions are never touched by the rewriter); statements not
  handled by any rewriting case (`defer`, `select`, declarations, ...)
  are not part of the statement type.
* The `instrumented` flag, set by `makeMemReadCall` / `makeMemWriteCall` /
  `instrumentGoStmt` / `instrumentMainFunction`, is the boolean component
  paired with each traversal result.
-/

/-- Kind of the object recorded in `types.Info.Uses` for an identifier
occurrence (`*types.PkgName`, `*types.TypeName`, `*types.Const`,
`*types.Nil`, `*types.Func`, or an ordinary variable / field). -/
inductive ObjKind where
  | pkgName
  | typeName
  | constObj
  | nilObj
  | funcObj
  | varObj
deriving DecidableEq, Repr

/-- Outcome of `typeInfo.Types[e]` for an expression: whether the
underlying type is the associative-container (map) kind. -/
inductive TypeKind where
  | mapType
  | otherType
deriving DecidableEq, Repr

/-- Unary operator, distinguishing only what `collectReads` distinguishes:
address-of (`&`), channel receive (`<-`), and everything else. -/
inductive UnOp where
  | addrOf
  | arrow
  | otherOp
deriving DecidableEq, Repr

/-- Assignment token: `=`, `:=`, or a compound operator (`+=`, ...). -/
inductive AssignTok where
  | assign
  | define
  | opAssign
deriving DecidableEq, Repr

mutual
/-- Expressions of the modelled `go/ast` fragment.  An `ident` carries its
`Uses` entry and whether `Defs` is non-nil for it; an `indexE` carries the
`Types` entry of its indexed operand `x` (`none` when the lookup fails). -/
inductive Expr where
  | ident (name : String) (uses : Option ObjKind) (defs : Bool)
  | selector (x : Expr) (sel : String) (selUses : Option ObjKind)
  | indexE (x : Expr) (idx : Expr) (xType : Option TypeKind)
  | star (x : Expr)
  | unary (op : UnOp) (x : Expr)
  | binary (x : Expr) (y : Expr)
  | call (fn : Expr) (args : List Expr)
  | paren (x : Expr)
  | sliceE (x : Expr) (lo : Option Expr) (hi : Option Expr) (mx : Option Expr)
  | typeAssert (x : Expr)
  | indexListE (x : Expr) (idxs : List Expr)
  | basicLit
  | compositeLit
  | funcLit (body : List Stmt)
deriving Repr

/-- Statements of the modelled `go/ast` fragment. -/
inductive Stmt where
  | block (body : List Stmt)
  | assign (lhs : List Expr) (tok : AssignTok) (rhs : List Expr)
  | incDec (x : Expr)
  | send (ch : Expr) (val : Expr)
  | rangeS (key : Option Expr) (val : Option Expr) (tok : AssignTok)
      (x : Expr) (body : List Stmt)
  | ret (results : List Expr)
  | exprStmt (x : Expr)
  | ifS (init : Option Stmt) (cond : Expr) (body : List Stmt)
      (els : Option Stmt)
  | forS (init : Option Stmt) (cond : Option Expr) (post : Option Stmt)
      (body : List Stmt)
  | switchS (tag : Option Expr) (body : List Stmt)
  | goS (fn : Expr) (args : List Expr)
  | labeled (label : String) (s : Stmt)
deriving Repr
end

/-- Configuration of the instrumenter (the fields of `Config` the rewriter
reads; `Importer` is the oracle boolean `ti`, `ImportRewrites` is a list
because Go map iteration order is irrelevant to the claims). -/
structure Config where
  importRewrites : List (String × String)
  baseRuntimeAddress : String
  runtimeAlias : String
  memReadFunc : String
  memWriteFunc : String
  spawnFunc : String
  goroutineEnterFunc : String
  goroutineExitFunc : String
deriving DecidableEq, Repr

/-- Builtin names skipped by `collectReads` (function `isBuiltin`). -/
def isBuiltin (name : String) : Bool :=
  name == "append" || name == "cap" || name == "close" || name == "complex" ||
  name == "copy" || name == "delete" || name == "imag" || name == "len" ||
  name == "make" || name == "new" || name == "panic" || name == "print" ||
  name == "println" || name == "real" || name == "recover" ||
  name == "true" || name == "false" || name == "nil" || name == "iota"

/-- Function `isBlankIdent`: the expression is the identifier `_`. -/
def isBlankIdent : Expr → Bool
  | .ident name _ _ => name == "_"
  | _ => false

/-- Function `makeMemReadCall`: builds
`ALIAS.MemRead(unsafe.Pointer(&expr))`.  Synthetic identifiers carry no
type-checker annotations. -/
def makeMemReadCall (cfg : Config) (e : Expr) : Expr :=
  .call (.selector (.ident cfg.runtimeAlias none false) cfg.memReadFunc none)
    [.call (.selector (.ident "unsafe" none false) "Pointer" none)
      [.unary .addrOf e]]

/-- Function `makeMemWriteCall`: builds
`ALIAS.MemWrite(unsafe.Pointer(&expr))`. -/
def makeMemWriteCall (cfg : Config) (e : Expr) : Expr :=
  .call (.selector (.ident cfg.runtimeAlias none false) cfg.memWriteFunc none)
    [.call (.selector (.ident "unsafe" none false) "Pointer" none)
      [.unary .addrOf e]]

/-- Read hook statement for an expression. -/
def readHook (cfg : Config) (e : Expr) : Stmt :=
  .exprStmt (makeMemReadCall cfg e)

/-- Write hook statement for an expression. -/
def writeHook (cfg : Config) (e : Expr) : Stmt :=
  .exprStmt (makeMemWriteCall cfg e)

/-- Identifier case of `collectReads` (the body the source executes when
`collectReads` is applied to an `*ast.Ident`), factored out because the
selector and call cases of the source recurse into a receiver that is
known to be an identifier. -/
def collectReadsIdent (cfg : Config) (ti : Bool) (name : String)
    (uses : Option ObjKind) (defs : Bool) : List Stmt :=
  if isBuiltin name then []
  else if ti then
    match uses with
    | some .pkgName | some .typeName | some .constObj | some .nilObj
    | some .funcObj => []
    | _ => [readHook cfg (.ident name uses defs)]
  else [readHook cfg (.ident name uses defs)]

mutual
/-- Function `collectReads`: emits read hooks for the atomic locations read
by an expression, in evaluation order.  `ti` is whether
`instr.typeInfo != nil`. -/
def collectReads (cfg : Config) (ti : Bool) : Expr → List Stmt
  | .ident name uses defs => collectReadsIdent cfg ti name uses defs
  | .selector x sel selUses =>
      if ti then
        match selUses with
        | some .constObj | some .pkgName | some .typeName | some .nilObj => []
        | some _ =>
            collectReads cfg ti x ++ [readHook cfg (.selector x sel selUses)]
        | none =>
            match x with
            | .ident xn xu xd =>
                match xu with
                | some .pkgName => []
                | some _ =>
                    collectReadsIdent cfg ti xn xu xd ++
                      [readHook cfg (.selector (.ident xn xu xd) sel selUses)]
                | none => []
            | _ =>
                collectReads cfg ti x ++
                  [readHook cfg (.selector x sel selUses)]
      else
        match x with
        | .ident _ _ _ => []
        | _ =>
            collectReads cfg ti x ++ [readHook cfg (.selector x sel selUses)]
  | .indexE x idx xType =>
      collectReads cfg ti x ++ collectReads cfg ti idx ++
        (if ti then
          match xType with
          | some .mapType => []
          | some .otherType => [readHook cfg (.indexE x idx xType)]
          | none => []
        else [])
  | .star x => collectReads cfg ti x ++ [readHook cfg (.star x)]
  | .unary op x =>
      match op with
      | .addrOf => []
      | .arrow => collectReads cfg ti x
      | .otherOp => collectReads cfg ti x
  | .binary x y => collectReads cfg ti x ++ collectReads cfg ti y
  | .call fn args =>
      (match fn with
        | .ident _ _ _ => []
        | .selector fx _ _ =>
            if ti then
              match fx with
              | .ident xn xu xd =>
                  match xu with
                  | some .pkgName => []
                  | some _ => collectReadsIdent cfg ti xn xu xd
                  | none => []
              | _ => collectReads cfg ti fx
            else
              match fx with
              | .ident _ _ _ => []
              | _ => collectReads cfg ti fx
        | other => collectReads cfg ti other) ++
        collectReadsList cfg ti args
  | .paren x => collectReads cfg ti x
  | .sliceE x lo hi mx =>
      collectReads cfg ti x ++ collectReadsOpt cfg ti lo ++
        collectReadsOpt cfg ti hi ++ collectReadsOpt cfg ti mx
  | .typeAssert x => collectReads cfg ti x
  | .indexListE x idxs =>
      collectReads cfg ti x ++ collectReadsList cfg ti idxs
  | .basicLit => []
  | .compositeLit => []
  | .funcLit _ => []

/-- Read collection over an argument list, in order. -/
def collectReadsList (cfg : Config) (ti : Bool) : List Expr → List Stmt
  | [] => []
  | e :: es => collectReads cfg ti e ++ collectReadsList cfg ti es

/-- Read collection over an optional sub-expression. -/
def collectReadsOpt (cfg : Config) (ti : Bool) : Option Expr → List Stmt
  | none => []
  | some e => collectReads cfg ti e
end

/-- Function `collectWrites`: emits the addressing reads of a left-hand
side followed by a write hook for the whole location. -/
def collectWrites (cfg : Config) (ti : Bool) : Expr → List Stmt
  | .ident name uses defs => [writeHook cfg (.ident name uses defs)]
  | .selector x sel selUses =>
      collectReads cfg ti x ++ [writeHook cfg (.selector x sel selUses)]
  | .indexE x idx xType =>
      collectReads cfg ti x ++ collectReads cfg ti idx ++
        (if ti then
          match xType with
          | some .mapType => []
          | some .otherType => [writeHook cfg (.indexE x idx xType)]
          | none => []
        else [])
  | .star x => collectReads cfg ti x ++ [writeHook cfg (.star x)]
  | .paren x => collectWrites cfg ti x
  | _ => []

/-- Function `lowerIfStmt` acting at a statement-list position: an `if`
with an initializer becomes `{ init; if cond { body } else ... }`; all
other statements are returned unchanged (the source guards the rewrite
with `stmt.Init != nil && canInsertBefore(c)`; the list position makes the
second conjunct true). -/
def lowerIfStmt : Stmt → Stmt
  | .ifS (some i) cond body els =>
      .block [i, .ifS none cond body els]
  | s => s

/-- Function `lowerForStmt` acting at a statement-list position: the post
statement (when present) is appended to the body, and when an initializer
is present the result is wrapped in a block holding the initializer and
the loop.  Other statements are unchanged. -/
def lowerForStmt : Stmt → Stmt
  | .forS init cond post body =>
      let body2 := match post with
        | some p => body ++ [p]
        | none => body
      match init with
      | some i => .block [i, .forS none cond none body2]
      | none => .forS none cond none body2
  | s => s

/-- Combined Pass 0 handler at a list position: `astutil.Apply` dispatches
on the node kind, so at most one of the two handlers fires. -/
def lowerHandler : Stmt → Stmt
  | .ifS init cond body els => lowerIfStmt (.ifS init cond body els)
  | .forS init cond post body => lowerForStmt (.forS init cond post body)
  | s => s

mutual
/-- Pass 0 on an optional single-slot statement (`if`/`for` initializers,
`for` posts, `else` branches): children are rewritten, the handlers skip
the node itself (`canInsertBefore` is false in these slots), so the whole
effect is the child traversal. -/
def lowerStmtOpt : Option Stmt → Option Stmt
  | none => none
  | some s => some (lowerStmtChildren s)

/-- Pass 0 on a statement list: each member's children are rewritten
first, then the handler runs at the member's (list) position. -/
def lowerStmtList : List Stmt → List Stmt
  | [] => []
  | s :: rest =>
      lowerHandler (lowerStmtChildren s) :: lowerStmtList rest

/-- Child traversal of Pass 0 for one statement (also the entire Pass 0
effect on a statement in a non-list slot, where the handlers skip the
node). -/
def lowerStmtChildren : Stmt → Stmt
  | .block body => .block (lowerStmtList body)
  | .assign lhs tok rhs =>
      .assign (lowerExprList lhs) tok (lowerExprList rhs)
  | .incDec x => .incDec (lowerExpr x)
  | .send ch v => .send (lowerExpr ch) (lowerExpr v)
  | .rangeS key val tok x body =>
      .rangeS (lowerExprOpt key) (lowerExprOpt val) tok (lowerExpr x)
        (lowerStmtList body)
  | .ret results => .ret (lowerExprList results)
  | .exprStmt x => .exprStmt (lowerExpr x)
  | .ifS init cond body els =>
      .ifS (lowerStmtOpt init) (lowerExpr cond) (lowerStmtList body)
        (lowerStmtOpt els)
  | .forS init cond post body =>
      .forS (lowerStmtOpt init) (lowerExprOpt cond) (lowerStmtOpt post)
        (lowerStmtList body)
  | .switchS tag body => .switchS (lowerExprOpt tag) (lowerStmtList body)
  | .goS fn args => .goS (lowerExpr fn) (lowerExprList args)
  | .labeled label s => .labeled label (lowerStmtChildren s)

/-- Pass 0 on an expression: the only statements reachable through an
expression are function-literal bodies (which `astutil.Apply` does
traverse). -/
def lowerExpr : Expr → Expr
  | .ident name uses defs => .ident name uses defs
  | .selector x sel selUses => .selector (lowerExpr x) sel selUses
  | .indexE x idx xType => .indexE (lowerExpr x) (lowerExpr idx) xType
  | .star x => .star (lowerExpr x)
  | .unary op x => .unary op (lowerExpr x)
  | .binary x y => .binary (lowerExpr x) (lowerExpr y)
  | .call fn args => .call (lowerExpr fn) (lowerExprList args)
  | .paren x => .paren (lowerExpr x)
  | .sliceE x lo hi mx =>
      .sliceE (lowerExpr x) (lowerExprOpt lo) (lowerExprOpt hi)
        (lowerExprOpt mx)
  | .typeAssert x => .typeAssert (lowerExpr x)
  | .indexListE x idxs => .indexListE (lowerExpr x) (lowerExprList idxs)
  | .basicLit => .basicLit
  | .compositeLit => .compositeLit
  | .funcLit body => .funcLit (lowerStmtList body)

/-- Pass 0 on an expression list. -/
def lowerExprList : List Expr → List Expr
  | [] => []
  | e :: es => lowerExpr e :: lowerExprList es

/-- Pass 0 on an optional expression. -/
def lowerExprOpt : Option Expr → Option Expr
  | none => none
  | some e => some (lowerExpr e)
end

/-- Left-hand-side loop of `instrumentAssignment`: returns the reads
appended for compound-op left-hand sides and the write statements, each in
left-hand-side order.  Blank identifiers are skipped; in define form an
identifier is write-instrumented only when type information is available
and `Defs[ident]` is nil (a redeclaration). -/
def assignLhsLoop (cfg : Config) (ti : Bool) (tok : AssignTok) :
    List Expr → List Stmt × List Stmt
  | [] => ([], [])
  | l :: ls =>
      let rest := assignLhsLoop cfg ti tok ls
      if isBlankIdent l then rest
      else
        let lhsReads :=
          if tok ≠ AssignTok.assign ∧ tok ≠ AssignTok.define then
            collectReads cfg ti l
          else []
        let lhsWrites :=
          if tok = AssignTok.define then
            match l with
            | .ident name uses defs =>
                if ti ∧ defs = false then
                  collectWrites cfg ti (.ident name uses defs)
                else []
            | _ => collectWrites cfg ti l
          else collectWrites cfg ti l
        (lhsReads ++ rest.1, lhsWrites ++ rest.2)

/-- Function `instrumentAssignment`: in a list slot, inserts all collected
read statements, then all collected write statements, before the
statement; in a non-list slot it does nothing.  The boolean reports
whether any hook call was constructed (the `instrumented` flag). -/
def instrumentAssignment (cfg : Config) (ti : Bool) (inList : Bool)
    (lhs : List Expr) (tok : AssignTok) (rhs : List Expr) :
    List Stmt × Bool :=
  if inList then
    let rhsReads := collectReadsList cfg ti rhs
    let lhsPair := assignLhsLoop cfg ti tok lhs
    (rhsReads ++ lhsPair.1 ++ lhsPair.2 ++ [.assign lhs tok rhs],
      !rhsReads.isEmpty || !lhsPair.1.isEmpty || !lhsPair.2.isEmpty)
  else ([.assign lhs tok rhs], false)

/-- Function `instrumentIncDec`: one read hook and one write hook on the
operand, inserted before the statement; skipped outside list slots.
Note: unlike `collectReads` / `collectWrites`, there is no map check
here. -/
def instrumentIncDec (cfg : Config) (inList : Bool) (x : Expr) :
    List Stmt × Bool :=
  if inList then
    ([.exprStmt (makeMemReadCall cfg x), .exprStmt (makeMemWriteCall cfg x),
      .incDec x], true)
  else ([.incDec x], false)

/-- Function `instrumentIfStmt`: reads of the condition inserted before
the `if` when it is in a list slot. -/
def instrumentIfStmt (cfg : Config) (ti : Bool) (inList : Bool)
    (init : Option Stmt) (cond : Expr) (body : List Stmt)
    (els : Option Stmt) : List Stmt × Bool :=
  if inList then
    let rs := collectReads cfg ti cond
    (rs ++ [.ifS init cond body els], !rs.isEmpty)
  else ([.ifS init cond body els], false)

/-- Function `instrumentForStmt`: when a condition is present, its reads
are inserted before the loop (list slots only) and appended to the body
(always; appending the empty list models the `len(readStmts) > 0`
guard). -/
def instrumentForStmt (cfg : Config) (ti : Bool) (inList : Bool)
    (init : Option Stmt) (cond : Option Expr) (post : Option Stmt)
    (body : List Stmt) : List Stmt × Bool :=
  match cond with
  | none => ([.forS init none post body], false)
  | some c =>
      let rs := collectReads cfg ti c
      ((if inList then rs else []) ++ [.forS init (some c) post (body ++ rs)],
        !rs.isEmpty)

/-- Function `instrumentSwitchStmt`: reads of the tag inserted before the
`switch` when present and in a list slot. -/
def instrumentSwitchStmt (cfg : Config) (ti : Bool) (inList : Bool)
    (tag : Option Expr) (body : List Stmt) : List Stmt × Bool :=
  match tag with
  | some t =>
      if inList then
        let rs := collectReads cfg ti t
        (rs ++ [.switchS (some t) body], !rs.isEmpty)
      else ([.switchS (some t) body], false)
  | none => ([.switchS none body], false)

/-- Function `instrumentSend`: reads of the channel and of the value. -/
def instrumentSend (cfg : Config) (ti : Bool) (inList : Bool)
    (ch : Expr) (v : Expr) : List Stmt × Bool :=
  if inList then
    let rs := collectReads cfg ti ch ++ collectReads cfg ti v
    (rs ++ [.send ch v], !rs.isEmpty)
  else ([.send ch v], false)

/-- Function `instrumentRange`: reads of the range expression before the
statement; writes of non-blank key/value before the statement for `=`
form, prepended to the body for `:=` form. -/
def instrumentRange (cfg : Config) (ti : Bool) (inList : Bool)
    (key : Option Expr) (val : Option Expr) (tok : AssignTok) (x : Expr)
    (body : List Stmt) : List Stmt × Bool :=
  if inList then
    let rs := collectReads cfg ti x
    let ws :=
      (match key with
        | some k => if !isBlankIdent k then collectWrites cfg ti k else []
        | none => []) ++
      (match val with
        | some v => if !isBlankIdent v then collectWrites cfg ti v else []
        | none => [])
    if tok = AssignTok.define then
      (rs ++ [.rangeS key val tok x (ws ++ body)],
        !rs.isEmpty || !ws.isEmpty)
    else
      (rs ++ ws ++ [.rangeS key val tok x body], !rs.isEmpty || !ws.isEmpty)
  else ([.rangeS key val tok x body], false)

/-- Function `instrumentReturn`: reads of each result. -/
def instrumentReturn (cfg : Config) (ti : Bool) (inList : Bool)
    (results : List Expr) : List Stmt × Bool :=
  if inList then
    let rs := collectReadsList cfg ti results
    (rs ++ [.ret results], !rs.isEmpty)
  else ([.ret results], false)

/-- Function `instrumentExprStmt`: reads of the contained expression. -/
def instrumentExprStmt (cfg : Config) (ti : Bool) (inList : Bool)
    (x : Expr) : List Stmt × Bool :=
  if inList then
    let rs := collectReads cfg ti x
    (rs ++ [.exprStmt x], !rs.isEmpty)
  else ([.exprStmt x], false)

/-- The part of `instrumentForStmt` that still runs when the loop is in a
non-list slot (`canInsertBefore` false): the condition reads are appended
to the body but nothing is inserted before the loop. -/
def instrumentForStmtSingle (cfg : Config) (ti : Bool)
    (init : Option Stmt) (cond : Option Expr) (post : Option Stmt)
    (body : List Stmt) : Stmt × Bool :=
  match cond with
  | none => (.forS init none post body, false)
  | some c =>
      let rs := collectReads cfg ti c
      (.forS init (some c) post (body ++ rs), !rs.isEmpty)

/-- Pass 1 rewriting callback at a list position, dispatching on the node
kind as `instrumentSingleAST`'s second `astutil.Apply` does. -/
def instrumentDispatch (cfg : Config) (ti : Bool) : Stmt → List Stmt × Bool
  | .ifS init cond body els => instrumentIfStmt cfg ti true init cond body els
  | .forS init cond post body =>
      instrumentForStmt cfg ti true init cond post body
  | .switchS tag body => instrumentSwitchStmt cfg ti true tag body
  | .incDec x => instrumentIncDec cfg true x
  | .assign lhs tok rhs => instrumentAssignment cfg ti true lhs tok rhs
  | .send ch v => instrumentSend cfg ti true ch v
  | .rangeS key val tok x body => instrumentRange cfg ti true key val tok x body
  | .ret results => instrumentReturn cfg ti true results
  | .exprStmt x => instrumentExprStmt cfg ti true x
  | s => ([s], false)

mutual
/-- Pass 1 on a statement list: children first, then the dispatch at the
member's (list) position; the boolean accumulates the `instrumented`
flag. -/
def instrStmtList (cfg : Config) (ti : Bool) : List Stmt → List Stmt × Bool
  | [] => ([], false)
  | s :: rest =>
      let c := instrStmtChildren cfg ti s
      let h := instrumentDispatch cfg ti c.1
      let r := instrStmtList cfg ti rest
      (h.1 ++ r.1, c.2 || h.2 || r.2)

/-- Pass 1 child traversal of one statement. -/
def instrStmtChildren (cfg : Config) (ti : Bool) : Stmt → Stmt × Bool
  | .block body =>
      let b := instrStmtList cfg ti body
      (.block b.1, b.2)
  | .assign lhs tok rhs =>
      let l := instrExprList cfg ti lhs
      let r := instrExprList cfg ti rhs
      (.assign l.1 tok r.1, l.2 || r.2)
  | .incDec x =>
      let c := instrExpr cfg ti x
      (.incDec c.1, c.2)
  | .send ch v =>
      let c := instrExpr cfg ti ch
      let w := instrExpr cfg ti v
      (.send c.1 w.1, c.2 || w.2)
  | .rangeS key val tok x body =>
      let k := instrExprOpt cfg ti key
      let v := instrExprOpt cfg ti val
      let e := instrExpr cfg ti x
      let b := instrStmtList cfg ti body
      (.rangeS k.1 v.1 tok e.1 b.1, k.2 || v.2 || e.2 || b.2)
  | .ret results =>
      let r := instrExprList cfg ti results
      (.ret r.1, r.2)
  | .exprStmt x =>
      let c := instrExpr cfg ti x
      (.exprStmt c.1, c.2)
  | .ifS init cond body els =>
      let i := instrStmtOpt cfg ti init
      let c := instrExpr cfg ti cond
      let b := instrStmtList cfg ti body
      let e := instrStmtOpt cfg ti els
      (.ifS i.1 c.1 b.1 e.1, i.2 || c.2 || b.2 || e.2)
  | .forS init cond post body =>
      let i := instrStmtOpt cfg ti init
      let c := instrExprOpt cfg ti cond
      let p := instrStmtOpt cfg ti post
      let b := instrStmtList cfg ti body
      (.forS i.1 c.1 p.1 b.1, i.2 || c.2 || p.2 || b.2)
  | .switchS tag body =>
      let t := instrExprOpt cfg ti tag
      let b := instrStmtList cfg ti body
      (.switchS t.1 b.1, t.2 || b.2)
  | .goS fn args =>
      let f := instrExpr cfg ti fn
      let a := instrExprList cfg ti args
      (.goS f.1 a.1, f.2 || a.2)
  | .labeled label s =>
      let c := instrStmtSingle cfg ti s
      (.labeled label c.1, c.2)

/-- Pass 1 on a statement in a non-list slot: children are traversed; of
the rewriting callbacks only the body-append part of `instrumentForStmt`
still acts. -/
def instrStmtSingle (cfg : Config) (ti : Bool) : Stmt → Stmt × Bool
  | .block body =>
      let b := instrStmtList cfg ti body
      (.block b.1, b.2)
  | .assign lhs tok rhs =>
      let l := instrExprList cfg ti lhs
      let r := instrExprList cfg ti rhs
      (.assign l.1 tok r.1, l.2 || r.2)
  | .incDec x =>
      let c := instrExpr cfg ti x
      (.incDec c.1, c.2)
  | .send ch v =>
      let c := instrExpr cfg ti ch
      let w := instrExpr cfg ti v
      (.send c.1 w.1, c.2 || w.2)
  | .rangeS key val tok x body =>
      let k := instrExprOpt cfg ti key
      let v := instrExprOpt cfg ti val
      let e := instrExpr cfg ti x
      let b := instrStmtList cfg ti body
      (.rangeS k.1 v.1 tok e.1 b.1, k.2 || v.2 || e.2 || b.2)
  | .ret results =>
      let r := instrExprList cfg ti results
      (.ret r.1, r.2)
  | .exprStmt x =>
      let c := instrExpr cfg ti x
      (.exprStmt c.1, c.2)
  | .ifS init cond body els =>
      let i := instrStmtOpt cfg ti init
      let c := instrExpr cfg ti cond
      let b := instrStmtList cfg ti body
      let e := instrStmtOpt cfg ti els
      (.ifS i.1 c.1 b.1 e.1, i.2 || c.2 || b.2 || e.2)
  | .forS init cond post body =>
      let i := instrStmtOpt cfg ti init
      let c := instrExprOpt cfg ti cond
      let p := instrStmtOpt cfg ti post
      let b := instrStmtList cfg ti body
      let h := instrumentForStmtSingle cfg ti i.1 c.1 p.1 b.1
      (h.1, i.2 || c.2 || p.2 || b.2 || h.2)
  | .switchS tag body =>
      let t := instrExprOpt cfg ti tag
      let b := instrStmtList cfg ti body
      (.switchS t.1 b.1, t.2 || b.2)
  | .goS fn args =>
      let f := instrExpr cfg ti fn
      let a := instrExprList cfg ti args
      (.goS f.1 a.1, f.2 || a.2)
  | .labeled label s =>
      let c := instrStmtSingle cfg ti s
      (.labeled label c.1, c.2)

/-- Pass 1 on an optional single-slot statement. -/
def instrStmtOpt (cfg : Config) (ti : Bool) :
    Option Stmt → Option Stmt × Bool
  | none => (none, false)
  | some s =>
      let c := instrStmtSingle cfg ti s
      (some c.1, c.2)

/-- Pass 1 on an expression: only function-literal bodies contain
statements to rewrite. -/
def instrExpr (cfg : Config) (ti : Bool) : Expr → Expr × Bool
  | .ident name uses defs => (.ident name uses defs, false)
  | .selector x sel selUses =>
      let c := instrExpr cfg ti x
      (.selector c.1 sel selUses, c.2)
  | .indexE x idx xType =>
      let c := instrExpr cfg ti x
      let i := instrExpr cfg ti idx
      (.indexE c.1 i.1 xType, c.2 || i.2)
  | .star x =>
      let c := instrExpr cfg ti x
      (.star c.1, c.2)
  | .unary op x =>
      let c := instrExpr cfg ti x
      (.unary op c.1, c.2)
  | .binary x y =>
      let c := instrExpr cfg ti x
      let d := instrExpr cfg ti y
      (.binary c.1 d.1, c.2 || d.2)
  | .call fn args =>
      let f := instrExpr cfg ti fn
      let a := instrExprList cfg ti args
      (.call f.1 a.1, f.2 || a.2)
  | .paren x =>
      let c := instrExpr cfg ti x
      (.paren c.1, c.2)
  | .sliceE x lo hi mx =>
      let c := instrExpr cfg ti x
      let l := instrExprOpt cfg ti lo
      let h := instrExprOpt cfg ti hi
      let m := instrExprOpt cfg ti mx
      (.sliceE c.1 l.1 h.1 m.1, c.2 || l.2 || h.2 || m.2)
  | .typeAssert x =>
      let c := instrExpr cfg ti x
      (.typeAssert c.1, c.2)
  | .indexListE x idxs =>
      let c := instrExpr cfg ti x
      let i := instrExprList cfg ti idxs
      (.indexListE c.1 i.1, c.2 || i.2)
  | .basicLit => (.basicLit, false)
  | .compositeLit => (.compositeLit, false)
  | .funcLit body =>
      let b := instrStmtList cfg ti body
      (.funcLit b.1, b.2)

/-- Pass 1 on an expression list. -/
def instrExprList (cfg : Config) (ti : Bool) : List Expr → List Expr × Bool
  | [] => ([], false)
  | e :: es =>
      let c := instrExpr cfg ti e
      let r := instrExprList cfg ti es
      (c.1 :: r.1, c.2 || r.2)

/-- Pass 1 on an optional expression. -/
def instrExprOpt (cfg : Config) (ti : Bool) :
    Option Expr → Option Expr × Bool
  | none => (none, false)
  | some e =>
      let c := instrExpr cfg ti e
      (some c.1, c.2)
end

/-- Temporary parameter name minted by `instrumentGoStmt` for argument
index `i` (`__moriarty_p<i>`). -/
def paramIdent (i : Nat) : Expr :=
  .ident ("__moriarty_p" ++ toString i) none false

/-- Loop of `instrumentGoStmt` over the call arguments, starting at index
`i`: for each argument, its collected reads followed by the definition of
the temporary. -/
def goArgStmts (cfg : Config) (ti : Bool) (i : Nat) :
    List Expr → List Stmt
  | [] => []
  | a :: rest =>
      collectReads cfg ti a ++
        [.assign [paramIdent i] .define [a]] ++
        goArgStmts cfg ti (i + 1) rest

/-- Temporaries passed to the wrapped call, in index order. -/
def goParamIdents (i : Nat) : List Expr → List Expr
  | [] => []
  | _ :: rest => paramIdent i :: goParamIdents (i + 1) rest

/-- Nullary call to a runtime function under the configured alias. -/
def runtimeCall (cfg : Config) (fnName : String) : Stmt :=
  .exprStmt (.call (.selector (.ident cfg.runtimeAlias none false) fnName none) [])

/-- Function `instrumentGoStmt`: replaces `go f(a1, ..., an)` with a block
evaluating each argument into a temporary (reads collected first), then
calling the spawn function on a closure `enter(); f(t0, ..., tn-1);
exit()`.  Always sets the `instrumented` flag. -/
def instrumentGoStmt (cfg : Config) (ti : Bool) (fn : Expr)
    (args : List Expr) : Stmt :=
  let wrappedCall : Expr := .call fn (goParamIdents 0 args)
  let funcL : Expr := .funcLit
    [runtimeCall cfg cfg.goroutineEnterFunc,
     .exprStmt wrappedCall,
     runtimeCall cfg cfg.goroutineExitFunc]
  let spawnCall : Stmt := .exprStmt
    (.call (.selector (.ident cfg.runtimeAlias none false) cfg.spawnFunc none)
      [funcL])
  .block (goArgStmts cfg ti 0 args ++ [spawnCall])

mutual
/-- Pass 2 on a statement: children first, then every `go` statement is
replaced by its desugaring block (the replacement happens in any slot; the
cursor `Replace` needs no list position). -/
def goStmt (cfg : Config) (ti : Bool) : Stmt → Stmt × Bool
  | .block body =>
      let b := goStmtList cfg ti body
      (.block b.1, b.2)
  | .assign lhs tok rhs =>
      let l := goExprList cfg ti lhs
      let r := goExprList cfg ti rhs
      (.assign l.1 tok r.1, l.2 || r.2)
  | .incDec x =>
      let c := goExpr cfg ti x
      (.incDec c.1, c.2)
  | .send ch v =>
      let c := goExpr cfg ti ch
      let w := goExpr cfg ti v
      (.send c.1 w.1, c.2 || w.2)
  | .rangeS key val tok x body =>
      let k := goExprOpt cfg ti key
      let v := goExprOpt cfg ti val
      let e := goExpr cfg ti x
      let b := goStmtList cfg ti body
      (.rangeS k.1 v.1 tok e.1 b.1, k.2 || v.2 || e.2 || b.2)
  | .ret results =>
      let r := goExprList cfg ti results
      (.ret r.1, r.2)
  | .exprStmt x =>
      let c := goExpr cfg ti x
      (.exprStmt c.1, c.2)
  | .ifS init cond body els =>
      let i := goStmtOpt cfg ti init
      let c := goExpr cfg ti cond
      let b := goStmtList cfg ti body
      let e := goStmtOpt cfg ti els
      (.ifS i.1 c.1 b.1 e.1, i.2 || c.2 || b.2 || e.2)
  | .forS init cond post body =>
      let i := goStmtOpt cfg ti init
      let c := goExprOpt cfg ti cond
      let p := goStmtOpt cfg ti post
      let b := goStmtList cfg ti body
      (.forS i.1 c.1 p.1 b.1, i.2 || c.2 || p.2 || b.2)
  | .switchS tag body =>
      let t := goExprOpt cfg ti tag
      let b := goStmtList cfg ti body
      (.switchS t.1 b.1, t.2 || b.2)
  | .goS fn args =>
      let f := goExpr cfg ti fn
      let a := goExprList cfg ti args
      (instrumentGoStmt cfg ti f.1 a.1, true)
  | .labeled label s =>
      let c := goStmt cfg ti s
      (.labeled label c.1, c.2)

/-- Pass 2 on a statement list. -/
def goStmtList (cfg : Config) (ti : Bool) : List Stmt → List Stmt × Bool
  | [] => ([], false)
  | s :: rest =>
      let c := goStmt cfg ti s
      let r := goStmtList cfg ti rest
      (c.1 :: r.1, c.2 || r.2)

/-- Pass 2 on an optional statement. -/
def goStmtOpt (cfg : Config) (ti : Bool) : Option Stmt → Option Stmt × Bool
  | none => (none, false)
  | some s =>
      let c := goStmt cfg ti s
      (some c.1, c.2)

/-- Pass 2 on an expression (function-literal bodies). -/
def goExpr (cfg : Config) (ti : Bool) : Expr → Expr × Bool
  | .ident name uses defs => (.ident name uses defs, false)
  | .selector x sel selUses =>
      let c := goExpr cfg ti x
      (.selector c.1 sel selUses, c.2)
  | .indexE x idx xType =>
      let c := goExpr cfg ti x
      let i := goExpr cfg ti idx
      (.indexE c.1 i.1 xType, c.2 || i.2)
  | .star x =>
      let c := goExpr cfg ti x
      (.star c.1, c.2)
  | .unary op x =>
      let c := goExpr cfg ti x
      (.unary op c.1, c.2)
  | .binary x y =>
      let c := goExpr cfg ti x
      let d := goExpr cfg ti y
      (.binary c.1 d.1, c.2 || d.2)
  | .call fn args =>
      let f := goExpr cfg ti fn
      let a := goExprList cfg ti args
      (.call f.1 a.1, f.2 || a.2)
  | .paren x =>
      let c := goExpr cfg ti x
      (.paren c.1, c.2)
  | .sliceE x lo hi mx =>
      let c := goExpr cfg ti x
      let l := goExprOpt cfg ti lo
      let h := goExprOpt cfg ti hi
      let m := goExprOpt cfg ti mx
      (.sliceE c.1 l.1 h.1 m.1, c.2 || l.2 || h.2 || m.2)
  | .typeAssert x =>
      let c := goExpr cfg ti x
      (.typeAssert c.1, c.2)
  | .indexListE x idxs =>
      let c := goExpr cfg ti x
      let i := goExprList cfg ti idxs
      (.indexListE c.1 i.1, c.2 || i.2)
  | .basicLit => (.basicLit, false)
  | .compositeLit => (.compositeLit, false)
  | .funcLit body =>
      let b := goStmtList cfg ti body
      (.funcLit b.1, b.2)

/-- Pass 2 on an expression list. -/
def goExprList (cfg : Config) (ti : Bool) : List Expr → List Expr × Bool
  | [] => ([], false)
  | e :: es =>
      let c := goExpr cfg ti e
      let r := goExprList cfg ti es
      (c.1 :: r.1, c.2 || r.2)

/-- Pass 2 on an optional expression. -/
def goExprOpt (cfg : Config) (ti : Bool) : Option Expr → Option Expr × Bool
  | none => (none, false)
  | some e =>
      let c := goExpr cfg ti e
      (some c.1, c.2)
end

/-- One import declaration of a file: its local name (empty string when
unnamed, matching `astutil`'s `importName`) and its path. -/
structure ImportSpec where
  name : String
  path : String
deriving DecidableEq, Repr

/-- A top-level declaration: a function declaration (name, whether it has
a receiver, optional body) or any other declaration. -/
inductive Decl where
  | funcDecl (name : String) (hasRecv : Bool) (body : Option (List Stmt))
  | otherDecl
deriving Repr

/-- A source file: package name, import declarations, top-level
declarations. -/
structure File where
  pkgName : String
  imports : List ImportSpec
  decls : List Decl
deriving Repr

/-- Function `astutil.AddNamedImport`: adds the named import only when
none with the same name and path is present (position in the list is
irrelevant to the claims, so it is appended). -/
def addNamedImport (imports : List ImportSpec) (name : String)
    (path : String) : List ImportSpec :=
  if imports.any (fun s => s.name == name && s.path == path) then imports
  else imports ++ [⟨name, path⟩]

/-- Function `astutil.AddImport`: `AddNamedImport` with an empty name. -/
def addImport (imports : List ImportSpec) (path : String) :
    List ImportSpec :=
  addNamedImport imports "" path

/-- Function `astutil.RewriteImport` folded over `Config.ImportRewrites`:
each existing import of a rewritten path gets the replacement path. -/
def applyImportRewrites (rw : List (String × String))
    (imports : List ImportSpec) : List ImportSpec :=
  rw.foldl
    (fun acc kv =>
      acc.map (fun s => if s.path == kv.1 then ⟨s.name, kv.2⟩ else s))
    imports

/-- Function `instrumentMainFunction` over the declaration list: brackets
the body of the first receiverless function named `main` with the
enter/exit hooks; returns whether the flag was set (a body was found). -/
def bracketMainDecls (cfg : Config) : List Decl → List Decl × Bool
  | [] => ([], false)
  | .funcDecl name hasRecv body :: rest =>
      if name == "main" && !hasRecv then
        match body with
        | some stmts =>
            (.funcDecl name hasRecv
              (some ([runtimeCall cfg cfg.goroutineEnterFunc] ++ stmts ++
                [runtimeCall cfg cfg.goroutineExitFunc])) :: rest, true)
        | none => (.funcDecl name hasRecv body :: rest, false)
      else
        let r := bracketMainDecls cfg rest
        (.funcDecl name hasRecv body :: r.1, r.2)
  | .otherDecl :: rest =>
      let r := bracketMainDecls cfg rest
      (.otherDecl :: r.1, r.2)

/-- Function `instrumentMainFunction`: only acts in the `main` package. -/
def instrumentMainFunction (cfg : Config) (f : File) : File × Bool :=
  if f.pkgName == "main" then
    let r := bracketMainDecls cfg f.decls
    ({ f with decls := r.1 }, r.2)
  else (f, false)

/-- Pass 0 over the declarations of a file (function bodies are statement
lists). -/
def lowerDecls : List Decl → List Decl
  | [] => []
  | .funcDecl name hasRecv body :: rest =>
      .funcDecl name hasRecv
        (match body with
          | some stmts => some (lowerStmtList stmts)
          | none => none) :: lowerDecls rest
  | .otherDecl :: rest => .otherDecl :: lowerDecls rest

/-- Pass 1 over the declarations of a file. -/
def instrDecls (cfg : Config) (ti : Bool) : List Decl → List Decl × Bool
  | [] => ([], false)
  | .funcDecl name hasRecv body :: rest =>
      let b := match body with
        | some stmts =>
            let r := instrStmtList cfg ti stmts
            (some r.1, r.2)
        | none => ((none : Option (List Stmt)), false)
      let r := instrDecls cfg ti rest
      (.funcDecl name hasRecv b.1 :: r.1, b.2 || r.2)
  | .otherDecl :: rest =>
      let r := instrDecls cfg ti rest
      (.otherDecl :: r.1, r.2)

/-- Pass 2 over the declarations of a file. -/
def goDecls (cfg : Config) (ti : Bool) : List Decl → List Decl × Bool
  | [] => ([], false)
  | .funcDecl name hasRecv body :: rest =>
      let b := match body with
        | some stmts =>
            let r := goStmtList cfg ti stmts
            (some r.1, r.2)
        | none => ((none : Option (List Stmt)), false)
      let r := goDecls cfg ti rest
      (.funcDecl name hasRecv b.1 :: r.1, b.2 || r.2)
  | .otherDecl :: rest =>
      let r := goDecls cfg ti rest
      (.otherDecl :: r.1, r.2)

/-- Function `instrumentSingleAST`: import rewrites, Pass 0, Pass 1,
Pass 2, main bracketing, then the two imports are added exactly when the
per-file `instrumented` flag was set.  Returns the rewritten file and the
flag. -/
def instrumentSingleAST (cfg : Config) (ti : Bool) (f : File) :
    File × Bool :=
  let imports1 := applyImportRewrites cfg.importRewrites f.imports
  let decls0 := lowerDecls f.decls
  let p1 := instrDecls cfg ti decls0
  let p2 := goDecls cfg ti p1.1
  let mb := instrumentMainFunction cfg { f with imports := imports1, decls := p2.1 }
  let dirty := p1.2 || p2.2 || mb.2
  if dirty then
    let newImports :=
      addNamedImport (addImport mb.1.imports "unsafe")
        cfg.runtimeAlias cfg.baseRuntimeAddress
    ({ mb.1 with imports := newImports }, true)
  else (mb.1, false)

/-- The mutable state of an `Instrumenter`: whether type information is
available (`typeInfo != nil`), the per-file flag and the batch flag. -/
structure Instrumenter where
  config : Config
  hasTypeInfo : Bool
  instrumented : Bool
  anyInstrumented : Bool
deriving Repr

/-- Method `WasInstrumented`. -/
def WasInstrumented (instr : Instrumenter) : Bool :=
  instr.anyInstrumented

/-- Per-file step shared by the batch loop: `instrumentSingleAST` resets
the per-file flag, and sets `anyInstrumented` when the file was
instrumented. -/
def runSingleAST (instr : Instrumenter) (f : File) :
    Instrumenter × File :=
  let r := instrumentSingleAST instr.config instr.hasTypeInfo f
  let newAny := instr.anyInstrumented || r.2
  ({ instr with instrumented := r.2, anyInstrumented := newAny }, r.1)

/-- Method `InstrumentASTs`: resets the batch flag, fixes the type-info
availability for the batch (`checkOk` is the outcome of running the type
checker over the files), then instruments every file. -/
def InstrumentASTs (instr : Instrumenter) (checkOk : Bool)
    (files : List File) : Instrumenter × List File :=
  let start := { instr with anyInstrumented := false, hasTypeInfo := checkOk }
  files.foldl
    (fun acc f =>
      let r := runSingleAST acc.1 f
      (r.1, acc.2 ++ [r.2]))
    (start, [])

/-- Method `InstrumentAST`: type-checks the single file (`checkOk` the
outcome) and instruments it.  Unlike `InstrumentASTs` it does not reset
the batch flag. -/
def InstrumentAST (instr : Instrumenter) (checkOk : Bool) (f : File) :
    Instrumenter × File :=
  runSingleAST { instr with hasTypeInfo := checkOk } f

/-- Recognizer for an emitted read hook statement
`ALIAS.MemRead(unsafe.Pointer(&e))`. -/
def isReadHook (cfg : Config) : Stmt → Bool
  | .exprStmt (.call (.selector (.ident a _ _) f _)
      [.call (.selector (.ident u _ _) p _) [.unary .addrOf _]]) =>
      a == cfg.runtimeAlias && f == cfg.memReadFunc &&
        u == "unsafe" && p == "Pointer"
  | _ => false

/-- Recognizer for an emitted write hook statement
`ALIAS.MemWrite(unsafe.Pointer(&e))`. -/
def isWriteHook (cfg : Config) : Stmt → Bool
  | .exprStmt (.call (.selector (.ident a _ _) f _)
      [.call (.selector (.ident u _ _) p _) [.unary .addrOf _]]) =>
      a == cfg.runtimeAlias && f == cfg.memWriteFunc &&
        u == "unsafe" && p == "Pointer"
  | _ => false

/-- The location argument of a memory hook statement (the operand of the
address-of), when the statement is a read or write hook. -/
def hookArg (cfg : Config) : Stmt → Option Expr
  | .exprStmt (.call (.selector (.ident a _ _) f _)
      [.call (.selector (.ident u _ _) p _) [.unary .addrOf e]]) =>
      if a == cfg.runtimeAlias && (f == cfg.memReadFunc || f == cfg.memWriteFunc)
          && u == "unsafe" && p == "Pointer" then some e
      else none
  | _ => none

/-- The expression is an index into an operand whose static type is the
associative-container (map) kind. -/
def isMapIndex : Expr → Bool
  | .indexE _ _ (some .mapType) => true
  | _ => false

/-- A sample configuration with the default hook names (the alias stands
for the minted `__moriarty_<hash>` identifier; the hash itself is outside
the rewriter core). -/
def cfg0 : Config :=
  { importRewrites := []
    baseRuntimeAddress := "github.com/amirkhaki/moriarty/pkg/runtime"
    runtimeAlias := "__moriarty_rt"
    memReadFunc := "MemRead"
    memWriteFunc := "MemWrite"
    spawnFunc := "Spawn"
    goroutineEnterFunc := "GoroutineEnter"
    goroutineExitFunc := "GoroutineExit" }


/-- The expression is a plain identifier. -/
def isIdentExpr : Expr → Bool
  | .ident _ _ _ => true
  | _ => false

/-- A statement of Go's `SimpleStmt` grammar class, the only statements a
parsed file can carry in an `if`/`for` initializer or `for` post slot. -/
def isSimpleStmt : Stmt → Bool
  | .assign _ _ _ => true
  | .incDec _ => true
  | .send _ _ => true
  | .exprStmt _ => true
  | _ => false

mutual
/-- Parser well-formedness of a statement: every `if`/`for` initializer
and `for` post slot holds a simple statement, recursively (go/parser
guarantees this for parsed source). -/
def wfStmt : Stmt → Bool
  | .block body => wfStmtList body
  | .assign lhs _ rhs => wfExprList lhs && wfExprList rhs
  | .incDec x => wfExpr x
  | .send ch v => wfExpr ch && wfExpr v
  | .rangeS key val _ x body =>
      wfExprOpt key && wfExprOpt val && wfExpr x && wfStmtList body
  | .ret results => wfExprList results
  | .exprStmt x => wfExpr x
  | .ifS init cond body els =>
      wfInitSlot init && wfExpr cond && wfStmtList body && wfStmtOpt els
  | .forS init cond post body =>
      wfInitSlot init && wfExprOpt cond && wfInitSlot post &&
        wfStmtList body
  | .switchS tag body => wfExprOpt tag && wfStmtList body
  | .goS fn args => wfExpr fn && wfExprList args
  | .labeled _ s => wfStmt s

/-- Well-formedness of an initializer or post slot: empty, or a simple
well-formed statement. -/
def wfInitSlot : Option Stmt → Bool
  | none => true
  | some s => isSimpleStmt s && wfStmt s

/-- Well-formedness of an optional statement (`else` branches). -/
def wfStmtOpt : Option Stmt → Bool
  | none => true
  | some s => wfStmt s

/-- Well-formedness of a statement list. -/
def wfStmtList : List Stmt → Bool
  | [] => true
  | s :: rest => wfStmt s && wfStmtList rest

/-- Well-formedness of an expression (function-literal bodies). -/
def wfExpr : Expr → Bool
  | .ident _ _ _ => true
  | .selector x _ _ => wfExpr x
  | .indexE x idx _ => wfExpr x && wfExpr idx
  | .star x => wfExpr x
  | .unary _ x => wfExpr x
  | .binary x y => wfExpr x && wfExpr y
  | .call fn args => wfExpr fn && wfExprList args
  | .paren x => wfExpr x
  | .sliceE x lo hi mx =>
      wfExpr x && wfExprOpt lo && wfExprOpt hi && wfExprOpt mx
  | .typeAssert x => wfExpr x
  | .indexListE x idxs => wfExpr x && wfExprList idxs
  | .basicLit => true
  | .compositeLit => true
  | .funcLit body => wfStmtList body

/-- Well-formedness of an expression list. -/
def wfExprList : List Expr → Bool
  | [] => true
  | e :: es => wfExpr e && wfExprList es

/-- Well-formedness of an optional expression. -/
def wfExprOpt : Option Expr → Bool
  | none => true
  | some e => wfExpr e
end

/-- Well-formedness of a declaration list. -/
def wfDecls : List Decl → Bool
  | [] => true
  | .funcDecl _ _ (some body) :: rest => wfStmtList body && wfDecls rest
  | .funcDecl _ _ none :: rest => wfDecls rest
  | .otherDecl :: rest => wfDecls rest

/-- Pass 0 on a whole file. -/
def lowerFile (f : File) : File :=
  { f with decls := lowerDecls f.decls }

/-- Parser well-formedness of a file. -/
def wfFile (f : File) : Bool :=
  wfDecls f.decls

/-- No write hook precedes a read hook in the statement list (the order
property the spec asserts for the hooks inserted before one assignment
statement). -/
def ReadsBeforeWrites (cfg : Config) (l : List Stmt) : Prop :=
  l.Pairwise
    (fun a b => isWriteHook cfg a = true → isReadHook cfg b = true → False)

/-- Sample variable identifiers (ordinary variables resolved by the type
checker, not introducing a definition). -/
def identA : Expr := .ident "a" (some .varObj) false

/-- Sample variable identifier `b`. -/
def identB : Expr := .ident "b" (some .varObj) false

/-- Sample variable identifier `x`. -/
def identX : Expr := .ident "x" (some .varObj) false

/-- Sample variable identifier `p`. -/
def identP : Expr := .ident "p" (some .varObj) false

/-- Sample field selection `p.f`. -/
def selPF : Expr := .selector identP "f" (some .varObj)

/-- Sample map variable `m`. -/
def identM : Expr := .ident "m" (some .varObj) false

/-- Sample variable identifier `k`. -/
def identK : Expr := .ident "k" (some .varObj) false

/-- Sample map element expression `m[k]` (the type checker resolved the
type of `m` to a map). -/
def mapIndexMK : Expr := .indexE identM identK (some .mapType)

/-- A file whose only statement is the assignment `x = 1` (it receives a
write hook) and which already imports `unsafe`. -/
def fileImportingUnsafe : File :=
  { pkgName := "p"
    imports := [⟨"", "unsafe"⟩]
    decls := [.funcDecl "f" false (some [.assign [identX] .assign [.basicLit]])] }

/-- A file that receives a hook (the assignment `x = 1`). -/
def dirtyFileEx : File :=
  { pkgName := "p"
    imports := []
    decls := [.funcDecl "f" false (some [.assign [identX] .assign [.basicLit]])] }

/-- A file that receives no hook (one empty declaration, not in the
`main` package). -/
def cleanFileEx : File :=
  { pkgName := "p"
    imports := []
    decls := [.otherDecl] }

/-- An instrumenter as `NewInstrumenter` returns it. -/
def instr0 : Instrumenter :=
  { config := cfg0
    hasTypeInfo := true
    instrumented := false
    anyInstrumented := false }

/-- A file with the loop `for i := 0; i < 10; i++ { x++ }` (Scenario C of
the specification). -/
def forFileEx : File :=
  { pkgName := "p"
    imports := []
    decls := [.funcDecl "f" false (some
      [.forS (some (.assign [.ident "i" (some .varObj) true] .define
                [.basicLit]))
         (some (.binary (.ident "i" (some .varObj) false) .basicLit))
         (some (.incDec (.ident "i" (some .varObj) false)))
         [.incDec identX]])] }

/-- Unfolding lemma for the identifier case of `collectReads`. -/
theorem collectReads_ident_eq (cfg : Config) (ti : Bool) (n : String)
    (u : Option ObjKind) (d : Bool) :
    collectReads cfg ti (.ident n u d) = collectReadsIdent cfg ti n u d := rfl

/-- Unfolding lemma for the selector case of `collectReads`. -/
theorem collectReads_selector_eq (cfg : Config) (ti : Bool) (x : Expr)
    (sel : String) (su : Option ObjKind) :
    collectReads cfg ti (.selector x sel su)
      = (if ti then
          match su with
          | some .constObj | some .pkgName | some .typeName | some .nilObj => []
          | some _ =>
              collectReads cfg ti x ++ [readHook cfg (.selector x sel su)]
          | none =>
              match x with
              | .ident xn xu xd =>
                  match xu with
                  | some .pkgName => []
                  | some _ =>
                      collectReadsIdent cfg ti xn xu xd ++
                        [readHook cfg (.selector (.ident xn xu xd) sel su)]
                  | none => []
              | _ =>
                  collectReads cfg ti x ++
                    [readHook cfg (.selector x sel su)]
        else
          match x with
          | .ident _ _ _ => []
          | _ =>
              collectReads cfg ti x ++ [readHook cfg (.selector x sel su)]) :=
  rfl

/-- Unfolding lemma for the index case of `collectReads`. -/
theorem collectReads_indexE_eq (cfg : Config) (ti : Bool) (x idx : Expr)
    (xt : Option TypeKind) :
    collectReads cfg ti (.indexE x idx xt)
      = collectReads cfg ti x ++ collectReads cfg ti idx ++
          (if ti then
            match xt with
            | some .mapType => []
            | some .otherType => [readHook cfg (.indexE x idx xt)]
            | none => []
          else []) := rfl

/-- Unfolding lemma for the dereference case of `collectReads`. -/
theorem collectReads_star_eq (cfg : Config) (ti : Bool) (x : Expr) :
    collectReads cfg ti (.star x)
      = collectReads cfg ti x ++ [readHook cfg (.star x)] := rfl

/-- Unfolding lemma for the unary case of `collectReads`. -/
theorem collectReads_unary_eq (cfg : Config) (ti : Bool) (op : UnOp)
    (x : Expr) :
    collectReads cfg ti (.unary op x)
      = (match op with
          | .addrOf => []
          | .arrow => collectReads cfg ti x
          | .otherOp => collectReads cfg ti x) := rfl

/-- Unfolding lemma for the binary case of `collectReads`. -/
theorem collectReads_binary_eq (cfg : Config) (ti : Bool) (x y : Expr) :
    collectReads cfg ti (.binary x y)
      = collectReads cfg ti x ++ collectReads cfg ti y := rfl

/-- Unfolding lemma for the call case of `collectReads`. -/
theorem collectReads_call_eq (cfg : Config) (ti : Bool) (fn : Expr)
    (args : List Expr) :
    collectReads cfg ti (.call fn args)
      = (match fn with
          | .ident _ _ _ => []
          | .selector fx _ _ =>
              if ti then
                match fx with
                | .ident xn xu xd =>
                    match xu with
                    | some .pkgName => []
                    | some _ => collectReadsIdent cfg ti xn xu xd
                    | none => []
                | _ => collectReads cfg ti fx
              else
                match fx with
                | .ident _ _ _ => []
                | _ => collectReads cfg ti fx
          | other => collectReads cfg ti other) ++
          collectReadsList cfg ti args := by
  cases fn <;> rfl

/-- Unfolding lemma for the paren case of `collectReads`. -/
theorem collectReads_paren_eq (cfg : Config) (ti : Bool) (x : Expr) :
    collectReads cfg ti (.paren x) = collectReads cfg ti x := rfl

/-- Unfolding lemma for the slice case of `collectReads`. -/
theorem collectReads_sliceE_eq (cfg : Config) (ti : Bool) (x : Expr)
    (lo hi mx : Option Expr) :
    collectReads cfg ti (.sliceE x lo hi mx)
      = collectReads cfg ti x ++ collectReadsOpt cfg ti lo ++
          collectReadsOpt cfg ti hi ++ collectReadsOpt cfg ti mx := rfl

/-- Unfolding lemma for the type-assertion case of `collectReads`. -/
theorem collectReads_typeAssert_eq (cfg : Config) (ti : Bool) (x : Expr) :
    collectReads cfg ti (.typeAssert x) = collectReads cfg ti x := rfl

/-- Unfolding lemma for the index-list case of `collectReads`. -/
theorem collectReads_indexListE_eq (cfg : Config) (ti : Bool) (x : Expr)
    (idxs : List Expr) :
    collectReads cfg ti (.indexListE x idxs)
      = collectReads cfg ti x ++ collectReadsList cfg ti idxs := rfl

/-- Unfolding lemma for the literal cases of `collectReads`. -/
theorem collectReads_lit_eq (cfg : Config) (ti : Bool) :
    collectReads cfg ti .basicLit = [] ∧
    collectReads cfg ti .compositeLit = [] ∧
    (∀ body, collectReads cfg ti (.funcLit body) = []) :=
  ⟨rfl, rfl, fun _ => rfl⟩

/-- Unfolding lemma for `collectReadsList`. -/
theorem collectReadsList_eq (cfg : Config) (ti : Bool) :
    collectReadsList cfg ti [] = [] ∧
    (∀ e es, collectReadsList cfg ti (e :: es)
        = collectReads cfg ti e ++ collectReadsList cfg ti es) :=
  ⟨rfl, fun _ _ => rfl⟩

/-- Unfolding lemma for `collectReadsOpt`. -/
theorem collectReadsOpt_eq (cfg : Config) (ti : Bool) :
    collectReadsOpt cfg ti none = [] ∧
    (∀ e, collectReadsOpt cfg ti (some e) = collectReads cfg ti e) :=
  ⟨rfl, fun _ => rfl⟩

/-- Unfolding lemma for the identifier case of `collectWrites`. -/
theorem collectWrites_ident_eq (cfg : Config) (ti : Bool) (n : String)
    (u : Option ObjKind) (d : Bool) :
    collectWrites cfg ti (.ident n u d) = [writeHook cfg (.ident n u d)] :=
  rfl

/-- Elements of `collectReadsIdent` are read hooks. -/
theorem collectReadsIdent_mem (cfg : Config) (ti : Bool) (n : String)
    (u : Option ObjKind) (d : Bool) (s : Stmt)
    (hs : s ∈ collectReadsIdent cfg ti n u d) : ∃ x, s = readHook cfg x := by
  unfold collectReadsIdent at hs
  split at hs
  · simp at hs
  · split at hs
    · split at hs <;> simp_all
    · simp at hs; exact ⟨_, hs⟩

mutual
/-- Every statement emitted by `collectReads` is a read hook. -/
theorem collectReads_mem (cfg : Config) (ti : Bool) :
    ∀ (e : Expr) (s : Stmt), s ∈ collectReads cfg ti e →
      ∃ x, s = readHook cfg x
  | .ident n u d, s, hs => by
      rw [collectReads_ident_eq] at hs
      exact collectReadsIdent_mem cfg ti n u d s hs
  | .selector x sel su, s, hs => by
      rw [collectReads_selector_eq] at hs
      split at hs
      · split at hs
        · simp at hs
        · simp at hs
        · simp at hs
        · simp at hs
        · rcases List.mem_append.1 hs with h | h
          · exact collectReads_mem cfg ti x s h
          · simp at h; exact ⟨_, h⟩
        · split at hs
          · split at hs
            · simp at hs
            · rcases List.mem_append.1 hs with h | h
              · exact collectReadsIdent_mem cfg ti _ _ _ s h
              · simp at h; exact ⟨_, h⟩
            · simp at hs
          · rcases List.mem_append.1 hs with h | h
            · exact collectReads_mem cfg ti x s h
            · simp at h; exact ⟨_, h⟩
      · split at hs
        · simp at hs
        · rcases List.mem_append.1 hs with h | h
          · exact collectReads_mem cfg ti x s h
          · simp at h; exact ⟨_, h⟩
  | .indexE x idx xt, s, hs => by
      rw [collectReads_indexE_eq] at hs
      rcases List.mem_append.1 hs with h | h
      · rcases List.mem_append.1 h with h2 | h2
        · exact collectReads_mem cfg ti x s h2
        · exact collectReads_mem cfg ti idx s h2
      · split at h
        · split at h <;> simp at h
          exact ⟨_, h⟩
        · simp at h
  | .star x, s, hs => by
      rw [collectReads_star_eq] at hs
      rcases List.mem_append.1 hs with h | h
      · exact collectReads_mem cfg ti x s h
      · simp at h; exact ⟨_, h⟩
  | .unary op x, s, hs => by
      rw [collectReads_unary_eq] at hs
      split at hs
      · simp at hs
      · exact collectReads_mem cfg ti x s hs
      · exact collectReads_mem cfg ti x s hs
  | .binary x y, s, hs => by
      rw [collectReads_binary_eq] at hs
      rcases List.mem_append.1 hs with h | h
      · exact collectReads_mem cfg ti x s h
      · exact collectReads_mem cfg ti y s h
  | .call fn args, s, hs => by
      rw [collectReads_call_eq] at hs
      rcases List.mem_append.1 hs with h | h
      · split at h
        · simp at h
        · split at h
          · split at h
            · split at h
              · simp at h
              · exact collectReadsIdent_mem cfg ti _ _ _ s h
              · simp at h
            · exact collectReads_mem cfg ti _ s h
          · split at h
            · simp at h
            · exact collectReads_mem cfg ti _ s h
        · exact collectReads_mem cfg ti _ s h
      · exact collectReadsList_mem cfg ti args s h
  | .paren x, s, hs => by
      rw [collectReads_paren_eq] at hs
      exact collectReads_mem cfg ti x s hs
  | .sliceE x lo hi mx, s, hs => by
      rw [collectReads_sliceE_eq] at hs
      rcases List.mem_append.1 hs with h | h
      · rcases List.mem_append.1 h with h2 | h2
        · rcases List.mem_append.1 h2 with h3 | h3
          · exact collectReads_mem cfg ti x s h3
          · exact collectReadsOpt_mem cfg ti lo s h3
        · exact collectReadsOpt_mem cfg ti hi s h2
      · exact collectReadsOpt_mem cfg ti mx s h
  | .typeAssert x, s, hs => by
      rw [collectReads_typeAssert_eq] at hs
      exact collectReads_mem cfg ti x s hs
  | .indexListE x idxs, s, hs => by
      rw [collectReads_indexListE_eq] at hs
      rcases List.mem_append.1 hs with h | h
      · exact collectReads_mem cfg ti x s h
      · exact collectReadsList_mem cfg ti idxs s h
  | .basicLit, s, hs => by
      rw [(collectReads_lit_eq cfg ti).1] at hs; simp at hs
  | .compositeLit, s, hs => by
      rw [(collectReads_lit_eq cfg ti).2.1] at hs; simp at hs
  | .funcLit body, s, hs => by
      rw [(collectReads_lit_eq cfg ti).2.2 body] at hs; simp at hs

/-- Every statement emitted by `collectReadsList` is a read hook. -/
theorem collectReadsList_mem (cfg : Config) (ti : Bool) :
    ∀ (es : List Expr) (s : Stmt), s ∈ collectReadsList cfg ti es →
      ∃ x, s = readHook cfg x
  | [], s, hs => by
      rw [(collectReadsList_eq cfg ti).1] at hs; simp at hs
  | e :: es, s, hs => by
      rw [(collectReadsList_eq cfg ti).2 e es] at hs
      rcases List.mem_append.1 hs with h | h
      · exact collectReads_mem cfg ti e s h
      · exact collectReadsList_mem cfg ti es s h

/-- Every statement emitted by `collectReadsOpt` is a read hook. -/
theorem collectReadsOpt_mem (cfg : Config) (ti : Bool) :
    ∀ (oe : Option Expr) (s : Stmt), s ∈ collectReadsOpt cfg ti oe →
      ∃ x, s = readHook cfg x
  | none, s, hs => by
      rw [(collectReadsOpt_eq cfg ti).1] at hs; simp at hs
  | some e, s, hs => by
      rw [(collectReadsOpt_eq cfg ti).2 e] at hs
      exact collectReads_mem cfg ti e s hs
end

/-- A read hook is not recognized as a write hook when the configured
function names differ. -/
theorem isWriteHook_readHook (cfg : Config)
    (h : cfg.memReadFunc ≠ cfg.memWriteFunc) (x : Expr) :
    isWriteHook cfg (readHook cfg x) = false := by
  simp [isWriteHook, readHook, makeMemReadCall, h]

/-- A write hook is not recognized as a read hook when the configured
function names differ. -/
theorem isReadHook_writeHook (cfg : Config)
    (h : cfg.memReadFunc ≠ cfg.memWriteFunc) (x : Expr) :
    isReadHook cfg (writeHook cfg x) = false := by
  simp [isReadHook, writeHook, makeMemWriteCall]
  intro h1
  exact absurd h1.symm h

/-- An assignment statement is not a hook. -/
theorem isReadHook_assign (cfg : Config) (lhs : List Expr)
    (tok : AssignTok) (rhs : List Expr) :
    isReadHook cfg (.assign lhs tok rhs) = false := rfl

/-- A list whose members are never write hooks satisfies the
read-before-write pairwise relation. -/
theorem pairwise_rbw_of_no_write (cfg : Config) (l : List Stmt)
    (h : ∀ a ∈ l, isWriteHook cfg a = false) : ReadsBeforeWrites cfg l := by
  induction l with
  | nil => exact List.Pairwise.nil
  | cons a t ih =>
      refine List.Pairwise.cons ?_ (ih fun b hb => h b (List.mem_cons_of_mem a hb))
      intro b _ hw
      rw [h a (List.mem_cons_self a t)] at hw
      exact absurd hw (by simp)

/-- A list whose members are never read hooks satisfies the
read-before-write pairwise relation. -/
theorem pairwise_rbw_of_no_read (cfg : Config) (l : List Stmt)
    (h : ∀ b ∈ l, isReadHook cfg b = false) : ReadsBeforeWrites cfg l := by
  induction l with
  | nil => exact List.Pairwise.nil
  | cons a t ih =>
      refine List.Pairwise.cons ?_ (ih fun b hb => h b (List.mem_cons_of_mem a hb))
      intro b hb _ hr
      rw [h b (List.mem_cons_of_mem a hb)] at hr
      exact absurd hr (by simp)

/-- A non-identifier expression is not the blank identifier. -/
theorem isBlankIdent_of_not_ident (l : Expr) (h : isIdentExpr l = false) :
    isBlankIdent l = false := by
  cases l <;> simp_all [isIdentExpr, isBlankIdent]

/-- An expression recognized by `isIdentExpr` is an identifier. -/
theorem exists_of_isIdentExpr :
    ∀ (l : Expr), isIdentExpr l = true → ∃ n u d, l = .ident n u d := by
  intro l h
  cases l <;> simp [isIdentExpr] at h ⊢

/-- Every read statement collected by the left-hand-side loop is a read
hook. -/
theorem assignLhsLoop_reads_mem (cfg : Config) (ti : Bool)
    (tok : AssignTok) :
    ∀ (lhs : List Expr) (s : Stmt), s ∈ (assignLhsLoop cfg ti tok lhs).1 →
      ∃ x, s = readHook cfg x := by
  intro lhs
  induction lhs with
  | nil => intro s hs; simp [assignLhsLoop] at hs
  | cons l ls ih =>
      intro s hs
      simp only [assignLhsLoop] at hs
      split at hs
      · exact ih s hs
      · rcases List.mem_append.1 hs with h | h
        · split at h
          · exact collectReads_mem cfg ti l s h
          · simp at h
        · exact ih s h

/-- When every left-hand side is an identifier, every write statement
collected by the left-hand-side loop is a write hook. -/
theorem assignLhsLoop_writes_mem_ident (cfg : Config) (ti : Bool)
    (tok : AssignTok) :
    ∀ (lhs : List Expr), (∀ l ∈ lhs, isIdentExpr l = true) →
      ∀ s ∈ (assignLhsLoop cfg ti tok lhs).2, ∃ x, s = writeHook cfg x := by
  intro lhs
  induction lhs with
  | nil => intro _ s hs; simp [assignLhsLoop] at hs
  | cons l ls ih =>
      intro hl s hs
      have hls : ∀ a ∈ ls, isIdentExpr a = true :=
        fun a ha => hl a (List.mem_cons_of_mem l ha)
      obtain ⟨n, u, d, rfl⟩ :=
        exists_of_isIdentExpr l (hl l (List.mem_cons_self l ls))
      simp only [assignLhsLoop] at hs
      split at hs
      · exact ih hls s hs
      · rcases List.mem_append.1 hs with h | h
        · split at h
          · split at h
            · rw [collectWrites_ident_eq] at h
              simp at h; exact ⟨_, h⟩
            · simp at h
          · rw [collectWrites_ident_eq] at h
            simp at h; exact ⟨_, h⟩
        · exact ih hls s h

/-- In plain-assignment and define form the left-hand-side loop collects
no reads. -/
theorem assignLhsLoop_no_lhs_reads (cfg : Config) (ti : Bool)
    (tok : AssignTok) (htok : tok = .assign ∨ tok = .define) :
    ∀ (lhs : List Expr), (assignLhsLoop cfg ti tok lhs).1 = [] := by
  intro lhs
  induction lhs with
  | nil => rfl
  | cons l ls ih =>
      simp only [assignLhsLoop]
      split
      · exact ih
      · have : ¬ (tok ≠ AssignTok.assign ∧ tok ≠ AssignTok.define) := by
          rcases htok with h | h <;> simp [h]
        simp [this, ih]

/-- Claim C2 counterexample: for `x, p.f = 1, 2` (both right-hand sides
literals) the emitted order is write hook on `x`, read hook on `p`, write
hook on `p.f`: a read hook is inserted after a write hook, so the claim
as stated fails. -/
theorem instrumentAssignment_read_after_write_example :
    ¬ ReadsBeforeWrites cfg0
      (instrumentAssignment cfg0 true true [identX, selPF] .assign
        [.basicLit, .basicLit]).1 := by
  have hout : (instrumentAssignment cfg0 true true [identX, selPF] .assign
      [.basicLit, .basicLit]).1
      = [writeHook cfg0 identX, readHook cfg0 identP, writeHook cfg0 selPF,
         .assign [identX, selPF] .assign [.basicLit, .basicLit]] := rfl
  rw [hout]
  intro h
  have h1 := (List.pairwise_cons.1 h).1 (readHook cfg0 identP)
    (by simp)
  exact h1 rfl rfl

/-- Unfolding lemma for the index case of `collectWrites`. -/
theorem collectWrites_indexE_eq (cfg : Config) (ti : Bool) (x idx : Expr)
    (xt : Option TypeKind) :
    collectWrites cfg ti (.indexE x idx xt)
      = collectReads cfg ti x ++ collectReads cfg ti idx ++
          (if ti then
            match xt with
            | some .mapType => []
            | some .otherType => [writeHook cfg (.indexE x idx xt)]
            | none => []
          else []) := rfl

/-- Shape of `collectWrites` on any left-hand side: the addressing read
hooks of the location, followed by at most one write hook for the whole
location (none when the location is a map element or not an addressable
shape). -/
theorem collectWrites_shape (cfg : Config) (ti : Bool) :
    ∀ (l : Expr), ∃ rs, (∀ s ∈ rs, ∃ x, s = readHook cfg x)
      ∧ (collectWrites cfg ti l = rs
          ∨ ∃ y, collectWrites cfg ti l = rs ++ [writeHook cfg y])
  | .ident n u d => ⟨[], by simp, Or.inr ⟨.ident n u d, rfl⟩⟩
  | .selector x sel su =>
      ⟨collectReads cfg ti x,
       fun s hs => collectReads_mem cfg ti x s hs,
       Or.inr ⟨.selector x sel su, rfl⟩⟩
  | .indexE x i xt => by
      refine ⟨collectReads cfg ti x ++ collectReads cfg ti i, ?_, ?_⟩
      · intro s hs
        rcases List.mem_append.1 hs with h | h
        · exact collectReads_mem cfg ti x s h
        · exact collectReads_mem cfg ti i s h
      · rw [collectWrites_indexE_eq]
        cases ti with
        | false => left; simp
        | true =>
            match xt with
            | none => left; simp
            | some .mapType => left; simp
            | some .otherType =>
                right
                exact ⟨.indexE x i (some .otherType), by simp⟩
  | .star x =>
      ⟨collectReads cfg ti x,
       fun s hs => collectReads_mem cfg ti x s hs,
       Or.inr ⟨.star x, rfl⟩⟩
  | .unary op x => ⟨[], by simp, Or.inl rfl⟩
  | .binary x y => ⟨[], by simp, Or.inl rfl⟩
  | .call fn args => ⟨[], by simp, Or.inl rfl⟩
  | .paren x => by
      obtain ⟨rs, h1, h2⟩ := collectWrites_shape cfg ti x
      refine ⟨rs, h1, ?_⟩
      have hp : collectWrites cfg ti (.paren x) = collectWrites cfg ti x :=
        rfl
      rw [hp]
      exact h2
  | .sliceE x lo hi mx => ⟨[], by simp, Or.inl rfl⟩
  | .typeAssert x => ⟨[], by simp, Or.inl rfl⟩
  | .indexListE x idxs => ⟨[], by simp, Or.inl rfl⟩
  | .basicLit => ⟨[], by simp, Or.inl rfl⟩
  | .compositeLit => ⟨[], by simp, Or.inl rfl⟩
  | .funcLit body => ⟨[], by simp, Or.inl rfl⟩

/-- Claim C2 (amended): in a statement-list slot the inserted statements
are the read phase (RHS reads, plus LHS value reads for compound-op; all
of them read hooks and none a write hook) followed by the write phase, so
every read hook of the read phase precedes every write hook.  The write
phase is the concatenation, in left-hand-side order, of each non-blank
left-hand side's `collectWrites` instrumentation, which consists of that
location's addressing read hooks followed by at most one write hook for
the whole location (none for a map element); hence a non-identifier
left-hand side can place addressing read hooks after an earlier left-hand
side's write hook, which is what the counterexample exhibits.  When every
left-hand side is a plain identifier, every read hook precedes every
write hook outright; in particular the swap `a, b = b, a` inserts read
`b`, read `a`, write `a`, write `b`, in this order, before the
statement. -/
theorem instrumentAssignment_read_write_order (cfg : Config) (ti : Bool)
    (lhs : List Expr) (tok : AssignTok) (rhs : List Expr)
    (hrw : cfg.memReadFunc ≠ cfg.memWriteFunc)
    (htok : tok ≠ AssignTok.define) :
    (instrumentAssignment cfg ti true lhs tok rhs).1
        = (collectReadsList cfg ti rhs ++ (assignLhsLoop cfg ti tok lhs).1)
          ++ ((assignLhsLoop cfg ti tok lhs).2 ++ [.assign lhs tok rhs])
  ∧ (∀ s ∈ collectReadsList cfg ti rhs ++ (assignLhsLoop cfg ti tok lhs).1,
        (∃ x, s = readHook cfg x) ∧ isWriteHook cfg s = false)
  ∧ (∀ (l : Expr) (ls : List Expr),
        (assignLhsLoop cfg ti tok (l :: ls)).2
          = (assignLhsLoop cfg ti tok [l]).2
            ++ (assignLhsLoop cfg ti tok ls).2)
  ∧ (∀ (l : Expr), isBlankIdent l = false →
        (assignLhsLoop cfg ti tok [l]).2 = collectWrites cfg ti l)
  ∧ (∀ (l : Expr), ∃ rs, (∀ s ∈ rs, ∃ x, s = readHook cfg x)
        ∧ (collectWrites cfg ti l = rs
            ∨ ∃ y, collectWrites cfg ti l = rs ++ [writeHook cfg y]))
  ∧ (∀ (x i : Expr), collectWrites cfg true (.indexE x i (some .mapType))
        = collectReads cfg true x ++ collectReads cfg true i)
  ∧ ((∀ l ∈ lhs, isIdentExpr l = true) →
        ReadsBeforeWrites cfg
          (instrumentAssignment cfg ti true lhs tok rhs).1)
  ∧ instrumentAssignment cfg0 true true [identA, identB] .assign
      [identB, identA]
      = ([readHook cfg0 identB, readHook cfg0 identA, writeHook cfg0 identA,
          writeHook cfg0 identB,
          .assign [identA, identB] .assign [identB, identA]], true) := by
  refine ⟨?_, ?_, ?_, ?_, ?_, ?_, ?_, ?_⟩
  · simp [instrumentAssignment, List.append_assoc]
  · intro s hs
    rcases List.mem_append.1 hs with h | h
    · obtain ⟨x, rfl⟩ := collectReadsList_mem cfg ti rhs s h
      exact ⟨⟨x, rfl⟩, isWriteHook_readHook cfg hrw x⟩
    · obtain ⟨x, rfl⟩ := assignLhsLoop_reads_mem cfg ti tok lhs s h
      exact ⟨⟨x, rfl⟩, isWriteHook_readHook cfg hrw x⟩
  · intro l ls
    simp only [assignLhsLoop]
    split <;> simp
  · intro l hb
    simp [assignLhsLoop, hb, htok]
  · exact fun l => collectWrites_shape cfg ti l
  · intro x i
    rw [collectWrites_indexE_eq]
    simp
  · intro hl
    simp only [instrumentAssignment, if_true]
    have hreads : ∀ a ∈ collectReadsList cfg ti rhs
        ++ (assignLhsLoop cfg ti tok lhs).1, isWriteHook cfg a = false := by
      intro a ha
      rcases List.mem_append.1 ha with h | h
      · obtain ⟨x, rfl⟩ := collectReadsList_mem cfg ti rhs a h
        exact isWriteHook_readHook cfg hrw x
      · obtain ⟨x, rfl⟩ := assignLhsLoop_reads_mem cfg ti tok lhs a h
        exact isWriteHook_readHook cfg hrw x
    have hwrites : ∀ b ∈ (assignLhsLoop cfg ti tok lhs).2
        ++ [Stmt.assign lhs tok rhs], isReadHook cfg b = false := by
      intro b hb
      rcases List.mem_append.1 hb with h | h
      · obtain ⟨x, rfl⟩ := assignLhsLoop_writes_mem_ident cfg ti tok lhs hl b h
        exact isReadHook_writeHook cfg hrw x
      · simp at h
        rw [h]
        exact isReadHook_assign cfg lhs tok rhs
    have hassoc :
        collectReadsList cfg ti rhs ++ (assignLhsLoop cfg ti tok lhs).1
          ++ (assignLhsLoop cfg ti tok lhs).2 ++ [Stmt.assign lhs tok rhs]
        = (collectReadsList cfg ti rhs ++ (assignLhsLoop cfg ti tok lhs).1)
          ++ ((assignLhsLoop cfg ti tok lhs).2
            ++ [Stmt.assign lhs tok rhs]) := by
      simp [List.append_assoc]
    rw [ReadsBeforeWrites, hassoc]
    refine (List.pairwise_append).2
      ⟨pairwise_rbw_of_no_write cfg _ hreads,
       pairwise_rbw_of_no_read cfg _ hwrites, ?_⟩
    intro a ha b _ hw _
    rw [hreads a ha] at hw
    exact absurd hw (by simp)
  · rfl

/-- Witness for the amended claim C2 at the swap `a, b = b, a`. -/
theorem instrumentAssignment_read_write_order_witness :
    ReadsBeforeWrites cfg0
      (instrumentAssignment cfg0 true true [identA, identB] .assign
        [identB, identA]).1 :=
  ((instrumentAssignment_read_write_order cfg0 true [identA, identB]
    .assign [identB, identA] (by decide)
    (by decide)).2.2.2.2.2.2.1) (by decide)

/-- Claim C3: in define form (with type information available), the write
statements inserted before the statement decompose per left-hand side; a
left-hand side identifier with a `Defs` entry (a fresh definition)
contributes no write hook, an identifier without one (a redeclaration)
contributes exactly its write hook, and a non-identifier left-hand side is
always write-instrumented through `collectWrites`. -/
theorem instrumentAssignment_define_spec (cfg : Config) :
    (∀ (l : Expr) (ls : List Expr),
        (assignLhsLoop cfg true .define (l :: ls)).2
          = (assignLhsLoop cfg true .define [l]).2
            ++ (assignLhsLoop cfg true .define ls).2)
  ∧ (∀ (n : String) (u : Option ObjKind),
        (assignLhsLoop cfg true .define [.ident n u true]).2 = [])
  ∧ (∀ (n : String) (u : Option ObjKind), n ≠ "_" →
        (assignLhsLoop cfg true .define [.ident n u false]).2
          = [writeHook cfg (.ident n u false)])
  ∧ (∀ (l : Expr), isIdentExpr l = false →
        (assignLhsLoop cfg true .define [l]).2 = collectWrites cfg true l)
  ∧ (∀ (lhs rhs : List Expr),
        (instrumentAssignment cfg true true lhs .define rhs).1
          = collectReadsList cfg true rhs
            ++ (assignLhsLoop cfg true .define lhs).2
            ++ [.assign lhs .define rhs]) := by
  refine ⟨?_, ?_, ?_, ?_, ?_⟩
  · intro l ls
    simp only [assignLhsLoop]
    split <;> simp
  · intro n u
    simp only [assignLhsLoop]
    split
    · rfl
    · simp
  · intro n u hn
    have hb : isBlankIdent (Expr.ident n u false) = false := by
      simp [isBlankIdent, hn]
    simp [assignLhsLoop, hb, collectWrites_ident_eq]
  · intro l hl
    have hb := isBlankIdent_of_not_ident l hl
    cases l <;> simp_all [isIdentExpr, assignLhsLoop]
  · intro lhs rhs
    simp [instrumentAssignment,
      assignLhsLoop_no_lhs_reads cfg true .define (Or.inr rfl) lhs]

/-- Witness for claim C3: concrete define statements with a fresh
identifier (no write), a redeclared identifier (one write hook) and the
emission equation. -/
theorem instrumentAssignment_define_spec_witness :
    (assignLhsLoop cfg0 true .define [.ident "y" (some .varObj) true]).2 = []
  ∧ (assignLhsLoop cfg0 true .define [.ident "x" (some .varObj) false]).2
      = [writeHook cfg0 (.ident "x" (some .varObj) false)]
  ∧ (instrumentAssignment cfg0 true true [.ident "x" (some .varObj) false]
      .define [.basicLit]).1
      = collectReadsList cfg0 true [.basicLit]
        ++ (assignLhsLoop cfg0 true .define
              [.ident "x" (some .varObj) false]).2
        ++ [.assign [.ident "x" (some .varObj) false] .define [.basicLit]] :=
  ⟨(instrumentAssignment_define_spec cfg0).2.1 "y" (some .varObj),
   (instrumentAssignment_define_spec cfg0).2.2.1 "x" (some .varObj)
     (by decide),
   (instrumentAssignment_define_spec cfg0).2.2.2.2
     [.ident "x" (some .varObj) false] [.basicLit]⟩

/-- Claim C10: when type checking produced no usable information, define
form emits no write statement for any identifier left-hand side
(redeclarations included): the write phase is empty and the emitted
sequence consists of the right-hand-side reads followed by the statement.
-/
theorem instrumentAssignment_noTypeInfo_define (cfg : Config)
    (inList : Bool) (lhs rhs : List Expr)
    (hl : ∀ l ∈ lhs, isIdentExpr l = true) :
    (assignLhsLoop cfg false .define lhs).2 = []
  ∧ (instrumentAssignment cfg false inList lhs .define rhs).1
      = (if inList then
          collectReadsList cfg false rhs ++ [.assign lhs .define rhs]
        else [.assign lhs .define rhs]) := by
  have hw : (assignLhsLoop cfg false .define lhs).2 = [] := by
    induction lhs with
    | nil => rfl
    | cons l ls ih =>
        have hls : ∀ a ∈ ls, isIdentExpr a = true :=
          fun a ha => hl a (List.mem_cons_of_mem l ha)
        obtain ⟨n, u, d, rfl⟩ :=
          exists_of_isIdentExpr l (hl l (List.mem_cons_self l ls))
        simp only [assignLhsLoop]
        split
        · exact ih hls
        · simp [ih hls]
  refine ⟨hw, ?_⟩
  cases inList with
  | false => rfl
  | true =>
      simp [instrumentAssignment, hw,
        assignLhsLoop_no_lhs_reads cfg false .define (Or.inr rfl) lhs]

/-- Witness for claim C10: with no type information, the redeclaration
`x := 1` (the identifier has no `Defs` entry) receives no write hook. -/
theorem instrumentAssignment_noTypeInfo_define_witness :
    (assignLhsLoop cfg0 false .define [.ident "x" (some .varObj) false]).2
      = []
  ∧ (instrumentAssignment cfg0 false true
      [.ident "x" (some .varObj) false] .define [.basicLit]).1
      = (if true then
          collectReadsList cfg0 false [.basicLit]
            ++ [.assign [.ident "x" (some .varObj) false] .define [.basicLit]]
        else [.assign [.ident "x" (some .varObj) false] .define [.basicLit]]) :=
  instrumentAssignment_noTypeInfo_define cfg0 true
    [.ident "x" (some .varObj) false] [.basicLit] (by decide)

/-- Claim C1, failing input `m[k]++` where `m` is map-typed: the rewriter
emits a read hook and a write hook whose argument is the map element
`m[k]` (so the printed output takes `&m[k]`, which Go rejects), although
`collectReads`/`collectWrites` deliberately skip map elements; the
increment/decrement path has no map check. -/
theorem incDecMapElement_hook :
    (instrStmtList cfg0 true [.incDec mapIndexMK]).1
      = [.exprStmt (makeMemReadCall cfg0 mapIndexMK),
         .exprStmt (makeMemWriteCall cfg0 mapIndexMK),
         .incDec mapIndexMK]
  ∧ isMapIndex mapIndexMK = true
  ∧ hookArg cfg0 (.exprStmt (makeMemReadCall cfg0 mapIndexMK))
      = some mapIndexMK
  ∧ hookArg cfg0 (.exprStmt (makeMemWriteCall cfg0 mapIndexMK))
      = some mapIndexMK
  ∧ (collectReads cfg0 true mapIndexMK
      = [.exprStmt (makeMemReadCall cfg0 identM),
         .exprStmt (makeMemReadCall cfg0 identK)]
     ∧ collectWrites cfg0 true mapIndexMK
      = [.exprStmt (makeMemReadCall cfg0 identM),
         .exprStmt (makeMemReadCall cfg0 identK)]) :=
  ⟨rfl, rfl, rfl, rfl, rfl, rfl⟩

/-- Claim C4: the spawn desugaring block binds one temporary per argument
in index order, each definition `__moriarty_p<i> := a_i` directly after
the reads collected for `a_i`, and ends with the spawn call whose sole
argument is a function literal whose body is exactly the enter hook, the
call on the temporaries, and the exit hook; Pass 2 replaces every `go`
statement by this block. -/
theorem instrumentGoStmt_spec (cfg : Config) (ti : Bool) (fn : Expr)
    (args : List Expr) :
    instrumentGoStmt cfg ti fn args
      = .block
          ((args.enum.flatMap
              (fun p => collectReads cfg ti p.2
                ++ [.assign [paramIdent p.1] .define [p.2]]))
            ++ [.exprStmt (.call
                  (.selector (.ident cfg.runtimeAlias none false)
                    cfg.spawnFunc none)
                  [.funcLit
                    [runtimeCall cfg cfg.goroutineEnterFunc,
                     .exprStmt (.call fn
                       (args.enum.map (fun p => paramIdent p.1))),
                     runtimeCall cfg cfg.goroutineExitFunc]])])
  ∧ goStmt cfg ti (.goS fn args)
      = (instrumentGoStmt cfg ti (goExpr cfg ti fn).1
          (goExprList cfg ti args).1, true) := by
  have harg : ∀ (as : List Expr) (i : Nat),
      goArgStmts cfg ti i as
        = (as.enumFrom i).flatMap
            (fun p => collectReads cfg ti p.2
              ++ [.assign [paramIdent p.1] .define [p.2]]) := by
    intro as
    induction as with
    | nil => intro i; rfl
    | cons a rest ih =>
        intro i
        simp [goArgStmts, List.enumFrom, ih (i + 1)]
  have hpar : ∀ (as : List Expr) (i : Nat),
      goParamIdents i as = (as.enumFrom i).map (fun p => paramIdent p.1) := by
    intro as
    induction as with
    | nil => intro i; rfl
    | cons a rest ih =>
        intro i
        simp [goParamIdents, List.enumFrom, ih (i + 1)]
  constructor
  · simp [instrumentGoStmt, List.enum, harg, hpar]
  · rfl

/-- Claim C5: the Pass 0 handler rewrites a list-slot `for` with both
initializer and post into the block `{ init; for cond { body; post } }`,
omits the block when only the post is present, appends nothing and wraps
nothing when neither is present, and a `for` in a non-list slot keeps its
initializer and post (only its children are rewritten). -/
theorem lowerForStmt_spec :
    (∀ i c p b, lowerForStmt (.forS (some i) c (some p) b)
        = .block [i, .forS none c none (b ++ [p])])
  ∧ (∀ i c b, lowerForStmt (.forS (some i) c none b)
        = .block [i, .forS none c none b])
  ∧ (∀ c p b, lowerForStmt (.forS none c (some p) b)
        = .forS none c none (b ++ [p]))
  ∧ (∀ c b, lowerForStmt (.forS none c none b) = .forS none c none b)
  ∧ (∀ i c p b, lowerStmtChildren (.forS i c p b)
        = .forS (lowerStmtOpt i) (lowerExprOpt c) (lowerStmtOpt p)
            (lowerStmtList b)) := by
  refine ⟨?_, ?_, ?_, ?_, ?_⟩ <;> intros <;> rfl

/-- Claim C6: for a loop with a condition, Pass 1 inserts the condition
reads before the loop (in a list slot) and appends the same reads at the
very end of the already-instrumented body; in a non-list slot only the
body append happens. -/
theorem instrumentForStmt_reads_twice (cfg : Config) (ti : Bool)
    (init : Option Stmt) (c : Expr) (post : Option Stmt)
    (body rest : List Stmt) :
    (instrStmtList cfg ti (.forS init (some c) post body :: rest)).1
      = collectReads cfg ti (instrExpr cfg ti c).1
        ++ [.forS (instrStmtOpt cfg ti init).1 (some (instrExpr cfg ti c).1)
              (instrStmtOpt cfg ti post).1
              ((instrStmtList cfg ti body).1
                ++ collectReads cfg ti (instrExpr cfg ti c).1)]
        ++ (instrStmtList cfg ti rest).1
  ∧ (instrStmtSingle cfg ti (.forS init (some c) post body)).1
      = .forS (instrStmtOpt cfg ti init).1 (some (instrExpr cfg ti c).1)
          (instrStmtOpt cfg ti post).1
          ((instrStmtList cfg ti body).1
            ++ collectReads cfg ti (instrExpr cfg ti c).1) := by
  constructor
  · simp [instrStmtList, instrStmtChildren, instrExprOpt, instrumentDispatch,
      instrumentForStmt]
  · simp [instrStmtSingle, instrExprOpt, instrumentForStmtSingle]

/-- Bracketing the main function leaves the imports of the file
unchanged. -/
theorem instrumentMainFunction_imports (cfg : Config) (g : File) :
    (instrumentMainFunction cfg g).1.imports = g.imports := by
  unfold instrumentMainFunction
  split <;> rfl

/-- Claim C7 counterexample: a file that already imports `unsafe` and
receives a hook gets exactly one new import, not two. -/
theorem import_insertion_single_new_import :
    (instrumentSingleAST cfg0 true fileImportingUnsafe).2 = true
  ∧ (instrumentSingleAST cfg0 true fileImportingUnsafe).1.imports
      = [⟨"", "unsafe"⟩, ⟨cfg0.runtimeAlias, cfg0.baseRuntimeAddress⟩]
  ∧ fileImportingUnsafe.imports.length = 1
  ∧ ¬ ((instrumentSingleAST cfg0 true fileImportingUnsafe).1.imports.length
        = fileImportingUnsafe.imports.length + 2) :=
  ⟨rfl, rfl, rfl, by decide⟩

/-- Claim C7 (amended): when the per-file flag is clear the imports are
exactly the rewritten originals; when it is set, the `unsafe` import and
the aliased runtime import are each ensured present (added only when
absent), so exactly two imports are added precisely when neither was
already present. -/
theorem import_insertion_spec (cfg : Config) (ti : Bool) (f : File) :
    ((instrumentSingleAST cfg ti f).2 = false →
      (instrumentSingleAST cfg ti f).1.imports
        = applyImportRewrites cfg.importRewrites f.imports)
  ∧ ((instrumentSingleAST cfg ti f).2 = true →
      (instrumentSingleAST cfg ti f).1.imports
        = addNamedImport
            (addImport (applyImportRewrites cfg.importRewrites f.imports)
              "unsafe")
            cfg.runtimeAlias cfg.baseRuntimeAddress)
  ∧ (∀ imports1,
      imports1 = applyImportRewrites cfg.importRewrites f.imports →
      imports1.any (fun s => s.name == "" && s.path == "unsafe") = false →
      (addImport imports1 "unsafe").any
        (fun s => s.name == cfg.runtimeAlias
          && s.path == cfg.baseRuntimeAddress) = false →
      (instrumentSingleAST cfg ti f).2 = true →
      (instrumentSingleAST cfg ti f).1.imports.length
        = imports1.length + 2) := by
  have hmb : ∀ g : File, (instrumentMainFunction cfg g).1.imports = g.imports :=
    fun g => instrumentMainFunction_imports cfg g
  refine ⟨?_, ?_, ?_⟩
  · simp only [instrumentSingleAST]
    split
    · intro h; simp at h
    · intro _
      rw [hmb]
  · simp only [instrumentSingleAST]
    split
    · intro _
      rw [hmb]
    · intro h; simp at h
  · intro imports1 h1 habs1 habs2 hdirty
    have l1 : addImport imports1 "unsafe" = imports1 ++ [⟨"", "unsafe"⟩] := by
      simp [addImport, addNamedImport, habs1]
    have l2 : addNamedImport (addImport imports1 "unsafe") cfg.runtimeAlias
        cfg.baseRuntimeAddress
        = addImport imports1 "unsafe"
          ++ [⟨cfg.runtimeAlias, cfg.baseRuntimeAddress⟩] := by
      rw [addNamedImport, if_neg]
      simp [habs2]
    revert hdirty
    simp only [instrumentSingleAST]
    split
    · intro _
      rw [hmb, ← h1, l2, l1]
      simp
    · intro h; simp at h

/-- Witness for the amended claim C7: a hook-receiving file with no prior
imports gains exactly two imports. -/
theorem import_insertion_spec_witness :
    (instrumentSingleAST cfg0 true dirtyFileEx).1.imports.length
      = (applyImportRewrites cfg0.importRewrites dirtyFileEx.imports).length
        + 2 :=
  (import_insertion_spec cfg0 true dirtyFileEx).2.2
    (applyImportRewrites cfg0.importRewrites dirtyFileEx.imports) rfl
    (by decide) (by decide) (by decide)

/-- The batch fold of `InstrumentASTs` accumulates the batch flag as the
disjunction over the per-file flags. -/
theorem instrumentASTs_foldl_any :
    ∀ (files : List File) (st : Instrumenter) (out : List File),
      ((files.foldl
          (fun acc f =>
            let r := runSingleAST acc.1 f
            (r.1, acc.2 ++ [r.2]))
          (st, out)).1).anyInstrumented
        = (st.anyInstrumented
            || files.any
                (fun f => (instrumentSingleAST st.config st.hasTypeInfo f).2)) := by
  intro files
  induction files with
  | nil => intro st out; simp
  | cons f fs ih =>
      intro st out
      simp only [List.foldl_cons, List.any_cons]
      rw [ih]
      simp [runSingleAST, Bool.or_assoc]

/-- Claim C9 counterexample: after a batch that inserted hooks, running
`InstrumentAST` on a file that receives none leaves the query `true`,
because `InstrumentAST` does not reset the batch flag. -/
theorem wasInstrumented_stale_example :
    (instrumentSingleAST cfg0 true cleanFileEx).2 = false
  ∧ WasInstrumented
      (InstrumentAST (InstrumentASTs instr0 true [dirtyFileEx]).1 true
        cleanFileEx).1 = true :=
  ⟨rfl, rfl⟩

/-- Claim C9 (amended): after `InstrumentASTs` the query reports whether
some file of that batch received hooks (the flag is reset per batch);
after `InstrumentAST` the query reports the previous value joined with
the new file's flag (no reset). -/
theorem wasInstrumented_spec :
    (∀ (i : Instrumenter) (checkOk : Bool) (files : List File),
        WasInstrumented (InstrumentASTs i checkOk files).1
          = files.any (fun f => (instrumentSingleAST i.config checkOk f).2))
  ∧ (∀ (i : Instrumenter) (checkOk : Bool) (f : File),
        WasInstrumented (InstrumentAST i checkOk f).1
          = (i.anyInstrumented
              || (instrumentSingleAST i.config checkOk f).2)) := by
  constructor
  · intro i ok files
    simp only [WasInstrumented, InstrumentASTs]
    rw [instrumentASTs_foldl_any]
    simp
  · intro i ok f
    rfl

/-- Pass 0 distributes over list concatenation. -/
theorem lowerStmtList_append (xs ys : List Stmt) :
    lowerStmtList (xs ++ ys) = lowerStmtList xs ++ lowerStmtList ys := by
  induction xs with
  | nil => rfl
  | cons s t ih => simp [lowerStmtList, ih]

/-- The Pass 0 handler leaves simple statements unchanged. -/
theorem lowerHandler_id_of_simple (s : Stmt) (h : isSimpleStmt s = true) :
    lowerHandler s = s := by
  cases s <;> simp_all [isSimpleStmt, lowerHandler]

/-- The child traversal preserves simple statements. -/
theorem isSimpleStmt_lowerStmtChildren (s : Stmt)
    (h : isSimpleStmt s = true) :
    isSimpleStmt (lowerStmtChildren s) = true := by
  cases s <;> simp_all [isSimpleStmt, lowerStmtChildren]

/-- A well-formed initializer slot is a well-formed optional statement. -/
theorem wfStmtOpt_of_wfInitSlot (o : Option Stmt)
    (h : wfInitSlot o = true) : wfStmtOpt o = true := by
  cases o with
  | none => rfl
  | some s =>
      simp only [wfInitSlot, Bool.and_eq_true] at h
      simp only [wfStmtOpt, h.2]

mutual
/-- Pass 0 is idempotent on expressions (well-formed inputs). -/
theorem lowerExpr_idem : ∀ (e : Expr), wfExpr e = true →
    lowerExpr (lowerExpr e) = lowerExpr e
  | .ident n u d, _ => rfl
  | .selector x sel su, hw => by
      simp only [wfExpr] at hw
      simp only [lowerExpr, lowerExpr_idem x hw]
  | .indexE x i xt, hw => by
      simp only [wfExpr, Bool.and_eq_true] at hw
      simp only [lowerExpr, lowerExpr_idem x hw.1, lowerExpr_idem i hw.2]
  | .star x, hw => by
      simp only [wfExpr] at hw
      simp only [lowerExpr, lowerExpr_idem x hw]
  | .unary op x, hw => by
      simp only [wfExpr] at hw
      simp only [lowerExpr, lowerExpr_idem x hw]
  | .binary x y, hw => by
      simp only [wfExpr, Bool.and_eq_true] at hw
      simp only [lowerExpr, lowerExpr_idem x hw.1, lowerExpr_idem y hw.2]
  | .call fn args, hw => by
      simp only [wfExpr, Bool.and_eq_true] at hw
      simp only [lowerExpr, lowerExpr_idem fn hw.1,
        lowerExprList_idem args hw.2]
  | .paren x, hw => by
      simp only [wfExpr] at hw
      simp only [lowerExpr, lowerExpr_idem x hw]
  | .sliceE x lo hi mx, hw => by
      simp only [wfExpr, Bool.and_eq_true] at hw
      obtain ⟨⟨⟨h1, h2⟩, h3⟩, h4⟩ := hw
      simp only [lowerExpr, lowerExpr_idem x h1, lowerExprOpt_idem lo h2,
        lowerExprOpt_idem hi h3, lowerExprOpt_idem mx h4]
  | .typeAssert x, hw => by
      simp only [wfExpr] at hw
      simp only [lowerExpr, lowerExpr_idem x hw]
  | .indexListE x idxs, hw => by
      simp only [wfExpr, Bool.and_eq_true] at hw
      simp only [lowerExpr, lowerExpr_idem x hw.1,
        lowerExprList_idem idxs hw.2]
  | .basicLit, _ => rfl
  | .compositeLit, _ => rfl
  | .funcLit body, hw => by
      simp only [wfExpr] at hw
      simp only [lowerExpr, lowerStmtList_idem body hw]

/-- Pass 0 is idempotent on expression lists. -/
theorem lowerExprList_idem : ∀ (es : List Expr), wfExprList es = true →
    lowerExprList (lowerExprList es) = lowerExprList es
  | [], _ => rfl
  | e :: es, hw => by
      simp only [wfExprList, Bool.and_eq_true] at hw
      simp only [lowerExprList, lowerExpr_idem e hw.1,
        lowerExprList_idem es hw.2]

/-- Pass 0 is idempotent on optional expressions. -/
theorem lowerExprOpt_idem : ∀ (oe : Option Expr), wfExprOpt oe = true →
    lowerExprOpt (lowerExprOpt oe) = lowerExprOpt oe
  | none, _ => rfl
  | some e, hw => by
      simp only [wfExprOpt] at hw
      simp only [lowerExprOpt, lowerExpr_idem e hw]

/-- The Pass 0 child traversal is idempotent. -/
theorem lowerStmtChildren_idem : ∀ (s : Stmt), wfStmt s = true →
    lowerStmtChildren (lowerStmtChildren s) = lowerStmtChildren s
  | .block body, hw => by
      simp only [wfStmt] at hw
      simp only [lowerStmtChildren, lowerStmtList_idem body hw]
  | .assign lhs tok rhs, hw => by
      simp only [wfStmt, Bool.and_eq_true] at hw
      simp only [lowerStmtChildren, lowerExprList_idem lhs hw.1,
        lowerExprList_idem rhs hw.2]
  | .incDec x, hw => by
      simp only [wfStmt] at hw
      simp only [lowerStmtChildren, lowerExpr_idem x hw]
  | .send ch v, hw => by
      simp only [wfStmt, Bool.and_eq_true] at hw
      simp only [lowerStmtChildren, lowerExpr_idem ch hw.1,
        lowerExpr_idem v hw.2]
  | .rangeS key val tok x body, hw => by
      simp only [wfStmt, Bool.and_eq_true] at hw
      obtain ⟨⟨⟨h1, h2⟩, h3⟩, h4⟩ := hw
      simp only [lowerStmtChildren, lowerExprOpt_idem key h1,
        lowerExprOpt_idem val h2, lowerExpr_idem x h3,
        lowerStmtList_idem body h4]
  | .ret results, hw => by
      simp only [wfStmt] at hw
      simp only [lowerStmtChildren, lowerExprList_idem results hw]
  | .exprStmt x, hw => by
      simp only [wfStmt] at hw
      simp only [lowerStmtChildren, lowerExpr_idem x hw]
  | .ifS i c b e, hw => by
      simp only [wfStmt, Bool.and_eq_true] at hw
      obtain ⟨⟨⟨h1, h2⟩, h3⟩, h4⟩ := hw
      simp only [lowerStmtChildren,
        lowerStmtOpt_idem i (wfStmtOpt_of_wfInitSlot i h1),
        lowerExpr_idem c h2, lowerStmtList_idem b h3,
        lowerStmtOpt_idem e h4]
  | .forS i c p b, hw => by
      simp only [wfStmt, Bool.and_eq_true] at hw
      obtain ⟨⟨⟨h1, h2⟩, h3⟩, h4⟩ := hw
      simp only [lowerStmtChildren,
        lowerStmtOpt_idem i (wfStmtOpt_of_wfInitSlot i h1),
        lowerExprOpt_idem c h2,
        lowerStmtOpt_idem p (wfStmtOpt_of_wfInitSlot p h3),
        lowerStmtList_idem b h4]
  | .switchS t b, hw => by
      simp only [wfStmt, Bool.and_eq_true] at hw
      simp only [lowerStmtChildren, lowerExprOpt_idem t hw.1,
        lowerStmtList_idem b hw.2]
  | .goS fn args, hw => by
      simp only [wfStmt, Bool.and_eq_true] at hw
      simp only [lowerStmtChildren, lowerExpr_idem fn hw.1,
        lowerExprList_idem args hw.2]
  | .labeled l s, hw => by
      simp only [wfStmt] at hw
      simp only [lowerStmtChildren, lowerStmtChildren_idem s hw]

/-- Pass 0 is idempotent on optional statements. -/
theorem lowerStmtOpt_idem : ∀ (os : Option Stmt), wfStmtOpt os = true →
    lowerStmtOpt (lowerStmtOpt os) = lowerStmtOpt os
  | none, _ => rfl
  | some s, hw => by
      simp only [wfStmtOpt] at hw
      simp only [lowerStmtOpt, lowerStmtChildren_idem s hw]

/-- Pass 0 is idempotent on statement lists. -/
theorem lowerStmtList_idem : ∀ (l : List Stmt), wfStmtList l = true →
    lowerStmtList (lowerStmtList l) = lowerStmtList l
  | [], _ => rfl
  | s :: t, hw => by
      simp only [wfStmtList, Bool.and_eq_true] at hw
      simp only [lowerStmtList, lowerListStep_idem s hw.1,
        lowerStmtList_idem t hw.2]

/-- One Pass 0 list step (child traversal followed by the handler) is
idempotent on well-formed statements. -/
theorem lowerListStep_idem : ∀ (s : Stmt), wfStmt s = true →
    lowerHandler (lowerStmtChildren (lowerHandler (lowerStmtChildren s)))
      = lowerHandler (lowerStmtChildren s)
  | .block body, hw => by
      simp only [wfStmt] at hw
      simp only [lowerStmtChildren, lowerHandler,
        lowerStmtList_idem body hw]
  | .assign lhs tok rhs, hw => by
      simp only [wfStmt, Bool.and_eq_true] at hw
      simp only [lowerStmtChildren, lowerHandler,
        lowerExprList_idem lhs hw.1, lowerExprList_idem rhs hw.2]
  | .incDec x, hw => by
      simp only [wfStmt] at hw
      simp only [lowerStmtChildren, lowerHandler, lowerExpr_idem x hw]
  | .send ch v, hw => by
      simp only [wfStmt, Bool.and_eq_true] at hw
      simp only [lowerStmtChildren, lowerHandler, lowerExpr_idem ch hw.1,
        lowerExpr_idem v hw.2]
  | .rangeS key val tok x body, hw => by
      simp only [wfStmt, Bool.and_eq_true] at hw
      obtain ⟨⟨⟨h1, h2⟩, h3⟩, h4⟩ := hw
      simp only [lowerStmtChildren, lowerHandler, lowerExprOpt_idem key h1,
        lowerExprOpt_idem val h2, lowerExpr_idem x h3,
        lowerStmtList_idem body h4]
  | .ret results, hw => by
      simp only [wfStmt] at hw
      simp only [lowerStmtChildren, lowerHandler,
        lowerExprList_idem results hw]
  | .exprStmt x, hw => by
      simp only [wfStmt] at hw
      simp only [lowerStmtChildren, lowerHandler, lowerExpr_idem x hw]
  | .ifS none c b e, hw => by
      simp only [wfStmt, Bool.and_eq_true] at hw
      obtain ⟨⟨⟨_, h2⟩, h3⟩, h4⟩ := hw
      simp only [lowerStmtChildren, lowerStmtOpt, lowerHandler, lowerIfStmt,
        lowerExpr_idem c h2, lowerStmtList_idem b h3, lowerStmtOpt_idem e h4]
  | .ifS (some i0) c b e, hw => by
      simp only [wfStmt, wfInitSlot, Bool.and_eq_true] at hw
      obtain ⟨⟨⟨⟨hsimp, hwf⟩, h2⟩, h3⟩, h4⟩ := hw
      have hstep : lowerHandler (lowerStmtChildren (.ifS (some i0) c b e))
          = .block [lowerStmtChildren i0,
              .ifS none (lowerExpr c) (lowerStmtList b) (lowerStmtOpt e)] :=
        rfl
      have hchild : lowerStmtChildren (Stmt.block [lowerStmtChildren i0,
          .ifS none (lowerExpr c) (lowerStmtList b) (lowerStmtOpt e)])
          = .block (lowerStmtList [lowerStmtChildren i0,
              .ifS none (lowerExpr c) (lowerStmtList b) (lowerStmtOpt e)]) :=
        rfl
      have hhb : ∀ L, lowerHandler (Stmt.block L) = Stmt.block L :=
        fun L => rfl
      rw [hstep, hchild, hhb]
      simp only [lowerStmtList]
      rw [lowerStmtChildren_idem i0 hwf,
        lowerHandler_id_of_simple _ (isSimpleStmt_lowerStmtChildren i0 hsimp)]
      have hsecond : lowerHandler (lowerStmtChildren (Stmt.ifS none
          (lowerExpr c) (lowerStmtList b) (lowerStmtOpt e)))
          = .ifS none (lowerExpr (lowerExpr c))
              (lowerStmtList (lowerStmtList b))
              (lowerStmtOpt (lowerStmtOpt e)) := rfl
      rw [hsecond, lowerExpr_idem c h2, lowerStmtList_idem b h3,
        lowerStmtOpt_idem e h4]
  | .forS i c p b, hw => by
      simp only [wfStmt, Bool.and_eq_true] at hw
      obtain ⟨⟨⟨h1, h2⟩, h3⟩, h4⟩ := hw
      have hfor : ∀ X L, lowerHandler (lowerStmtChildren
          (Stmt.forS none X none L))
          = .forS none (lowerExprOpt X) none (lowerStmtList L) :=
        fun X L => rfl
      have hhb : ∀ L, lowerHandler (Stmt.block L) = Stmt.block L :=
        fun L => rfl
      cases i with
      | none =>
          cases p with
          | none =>
              rw [show lowerHandler (lowerStmtChildren (.forS none c none b))
                  = .forS none (lowerExprOpt c) none (lowerStmtList b)
                from rfl]
              rw [hfor, lowerExprOpt_idem c h2, lowerStmtList_idem b h4]
          | some p0 =>
              simp only [wfInitSlot, Bool.and_eq_true] at h3
              obtain ⟨hps, hpw⟩ := h3
              rw [show lowerHandler (lowerStmtChildren
                    (.forS none c (some p0) b))
                  = .forS none (lowerExprOpt c) none
                      (lowerStmtList b ++ [lowerStmtChildren p0])
                from rfl]
              rw [hfor, lowerStmtList_append,
                lowerExprOpt_idem c h2, lowerStmtList_idem b h4]
              simp only [lowerStmtList]
              rw [lowerStmtChildren_idem p0 hpw,
                lowerHandler_id_of_simple _
                  (isSimpleStmt_lowerStmtChildren p0 hps)]
      | some i0 =>
          simp only [wfInitSlot, Bool.and_eq_true] at h1
          obtain ⟨his, hiw⟩ := h1
          cases p with
          | none =>
              rw [show lowerHandler (lowerStmtChildren
                    (.forS (some i0) c none b))
                  = .block [lowerStmtChildren i0,
                      .forS none (lowerExprOpt c) none (lowerStmtList b)]
                from rfl]
              rw [show lowerStmtChildren (Stmt.block [lowerStmtChildren i0,
                    .forS none (lowerExprOpt c) none (lowerStmtList b)])
                  = .block (lowerStmtList [lowerStmtChildren i0,
                      .forS none (lowerExprOpt c) none (lowerStmtList b)])
                from rfl]
              rw [hhb]
              simp only [lowerStmtList]
              rw [lowerStmtChildren_idem i0 hiw,
                lowerHandler_id_of_simple _
                  (isSimpleStmt_lowerStmtChildren i0 his)]
              rw [hfor, lowerExprOpt_idem c h2, lowerStmtList_idem b h4]
          | some p0 =>
              simp only [wfInitSlot, Bool.and_eq_true] at h3
              obtain ⟨hps, hpw⟩ := h3
              rw [show lowerHandler (lowerStmtChildren
                    (.forS (some i0) c (some p0) b))
                  = .block [lowerStmtChildren i0,
                      .forS none (lowerExprOpt c) none
                        (lowerStmtList b ++ [lowerStmtChildren p0])]
                from rfl]
              rw [show lowerStmtChildren (Stmt.block [lowerStmtChildren i0,
                    .forS none (lowerExprOpt c) none
                      (lowerStmtList b ++ [lowerStmtChildren p0])])
                  = .block (lowerStmtList [lowerStmtChildren i0,
                      .forS none (lowerExprOpt c) none
                        (lowerStmtList b ++ [lowerStmtChildren p0])])
                from rfl]
              rw [hhb]
              simp only [lowerStmtList]
              rw [lowerStmtChildren_idem i0 hiw,
                lowerHandler_id_of_simple _
                  (isSimpleStmt_lowerStmtChildren i0 his)]
              rw [hfor, lowerStmtList_append,
                lowerExprOpt_idem c h2, lowerStmtList_idem b h4]
              simp only [lowerStmtList]
              rw [lowerStmtChildren_idem p0 hpw,
                lowerHandler_id_of_simple _
                  (isSimpleStmt_lowerStmtChildren p0 hps)]
  | .switchS t b, hw => by
      simp only [wfStmt, Bool.and_eq_true] at hw
      simp only [lowerStmtChildren, lowerHandler, lowerExprOpt_idem t hw.1,
        lowerStmtList_idem b hw.2]
  | .goS fn args, hw => by
      simp only [wfStmt, Bool.and_eq_true] at hw
      simp only [lowerStmtChildren, lowerHandler, lowerExpr_idem fn hw.1,
        lowerExprList_idem args hw.2]
  | .labeled l s, hw => by
      simp only [wfStmt] at hw
      simp only [lowerStmtChildren, lowerHandler, lowerStmtChildren_idem s hw]
end

/-- Pass 0 is idempotent on declaration lists. -/
theorem lowerDecls_idem (ds : List Decl) (hw : wfDecls ds = true) :
    lowerDecls (lowerDecls ds) = lowerDecls ds := by
  induction ds with
  | nil => rfl
  | cons d rest ih =>
      cases d with
      | funcDecl n r body =>
          cases body with
          | none =>
              simp only [wfDecls] at hw
              simp only [lowerDecls, ih hw]
          | some stmts =>
              simp only [wfDecls, Bool.and_eq_true] at hw
              simp only [lowerDecls, lowerStmtList_idem stmts hw.1, ih hw.2]
      | otherDecl =>
          simp only [wfDecls] at hw
          simp only [lowerDecls, ih hw]

/-- Claim C8: Pass 0 (control-flow lowering) is idempotent on every
parser-well-formed file: applying it twice yields the same AST as
applying it once.  (Well-formedness mirrors go/parser: initializer and
post slots hold simple statements; on arbitrary ASTs a `for` with an
initializer placed in an `if` initializer slot would be lowered only by
the second application.) -/
theorem lowerFile_idempotent (f : File) (hw : wfFile f = true) :
    lowerFile (lowerFile f) = lowerFile f := by
  unfold lowerFile wfFile at *
  simp only [lowerDecls_idem f.decls hw]

/-- Witness for claim C8 at the Scenario C loop file. -/
theorem lowerFile_idempotent_witness :
    lowerFile (lowerFile forFileEx) = lowerFile forFileEx :=
  lowerFile_idempotent forFileEx (by decide)
